import Mathlib

/-!
Verification of the Dozer DAG execution kernel against its specification.

The Rust sources under `dozer-core/src/dag/` are shallowly embedded below:
`dag.rs` (the DAG model and `connect`/`merge`), `mt_executor.rs`
(edge indexing, `start` validation, and the sink/processor worker loops)
and `executor_checkpoint.rs` (checkpoint metadata reading and the
dependency-tree consistency analyzer).

Rust `HashMap`s are embedded as association lists (`List (κ × ν)`) with
`HashMap::insert` / `remove` / `get` semantics; the claims only observe maps
through lookups, so the representation is faithful.  Machine integers
(`u16` ports, `u64` sequence numbers) are embedded as `Nat`: decoded values
come from at most 8 big-endian bytes, so no overflow arises.  Host-supplied
opaque data (`Record`, `Schema` from `dozer_types`) are embedded as opaque
wrapper structures; externally supplied operator callbacks and host
serialization functions are parameters of the model.
-/

namespace Dozer

/-! ## Association-list maps (embedding of Rust `HashMap`) -/

/-- First-match lookup in an association list. -/
def alookup {α β : Type} [DecidableEq α] : List (α × β) → α → Option β
  | [], _ => none
  | (k, v) :: rest, key => if key = k then some v else alookup rest key

/-- Replace every binding of `k` by `(k, v)`, keeping the position. -/
def replaceA {α β : Type} [DecidableEq α] : List (α × β) → α → β → List (α × β)
  | [], _, _ => []
  | (k₀, v₀) :: rest, k, v =>
    if k₀ = k then (k, v) :: replaceA rest k v else (k₀, v₀) :: replaceA rest k v

/-- Rust `HashMap::insert`: replace the binding of `k` if present, else add one. -/
def insertA {α β : Type} [DecidableEq α] (m : List (α × β)) (k : α) (v : β) :
    List (α × β) :=
  if (alookup m k).isSome then replaceA m k v else m ++ [(k, v)]

/-- Drop every binding of `k` (there is at most one in a `HashMap` image). -/
def eraseKeyA {α β : Type} [DecidableEq α] : List (α × β) → α → List (α × β)
  | [], _ => []
  | (k₀, v₀) :: rest, k =>
    if k₀ = k then eraseKeyA rest k else (k₀, v₀) :: eraseKeyA rest k

/-- Rust `HashMap::remove`: the removed value and the map without `k`. -/
def removeA {α β : Type} [DecidableEq α] (m : List (α × β)) (k : α) :
    Option β × List (α × β) :=
  (alookup m k, eraseKeyA m k)

/-- Append `x` to the list bound at key `k` (Rust `get_mut(k).unwrap().push(x)`). -/
def pushA {α β : Type} [DecidableEq α] : List (α × List β) → α → β → List (α × List β)
  | [], _, _ => []
  | (k₀, xs) :: rest, k, x =>
    if k₀ = k then (k₀, xs ++ [x]) :: pushA rest k x else (k₀, xs) :: pushA rest k x

/-- Push on the existing list bound at `k`, or bind `k` to a fresh singleton:
the `entry`-like pattern used for both channel vectors and seq groups. -/
def pushEntry {α β : Type} [DecidableEq α] (m : List (α × List β)) (k : α) (x : β) :
    List (α × List β) :=
  if (alookup m k).isSome then pushA m k x else m ++ [(k, [x])]

/-! ## Core data model (`dag.rs`, `dozer_types`) -/

/-- Rust `pub type NodeHandle = String;`. -/
abbrev NodeHandle := String

/-- Rust `pub type PortHandle = u16;` (values decoded from two bytes, so `Nat` is exact). -/
abbrev PortHandle := Nat

/-- Opaque host record type (`dozer_types::types::Record`). -/
structure Record where
  id : Nat
deriving DecidableEq, Repr

/-- Opaque host schema type (`dozer_types::types::Schema`). -/
structure Schema where
  id : Nat
deriving DecidableEq, Repr

/-- Rust `Endpoint { node, port }` from `dag.rs`. -/
structure Endpoint where
  node : NodeHandle
  port : PortHandle
deriving DecidableEq, Repr

/-- Rust `Edge { from, to }` from `dag.rs` (`from` is a Lean keyword, so `src`/`dst`). -/
structure Edge where
  src : Endpoint
  dst : Endpoint
deriving DecidableEq, Repr

/-- A `SourceFactory` abstracted to the observations the kernel makes of it. -/
structure SourceFactory where
  outputPorts : List PortHandle
  stateful : Bool
deriving DecidableEq, Repr

/-- A `ProcessorFactory` abstracted to the observations the kernel makes of it. -/
structure ProcessorFactory where
  inputPorts : List PortHandle
  outputPorts : List PortHandle
  stateful : Bool
deriving DecidableEq, Repr

/-- A `SinkFactory` abstracted to the observations the kernel makes of it. -/
structure SinkFactory where
  inputPorts : List PortHandle
  stateful : Bool
deriving DecidableEq, Repr

/-- Rust `NodeType` from `dag.rs`: `Source`, `Sink`, or `Processor` with its factory. -/
inductive NodeType where
  | source (f : SourceFactory)
  | sink (f : SinkFactory)
  | processor (f : ProcessorFactory)
deriving DecidableEq, Repr

/-- Rust `Dag { nodes: HashMap<NodeHandle, NodeType>, edges: Vec<Edge> }`. -/
structure Dag where
  nodes : List (NodeHandle × NodeType)
  edges : List Edge
deriving DecidableEq, Repr

/-- Rust `PortDirection` from `dag.rs`. -/
inductive PortDirection where
  | input
  | output
deriving DecidableEq, Repr

/-- Failure kinds of `Dag::connect` (`dag.rs` raises them as `anyhow`
messages; the spec names them `UnknownNode`, `InvalidPortDirection` and
`UnknownPort`).  `unknownNode` carries the handle from
`"Unable to find source node with id = {}"`; `invalidPortDirection` is
`"Invalid node type"` from `get_ports`; `unknownPort` is
`"Unable to connect port"`. -/
inductive DagError where
  | unknownNode (handle : NodeHandle)
  | invalidPortDirection
  | unknownPort
deriving DecidableEq, Repr

/-- Rust `Dag::get_ports` (`dag.rs` lines 73–97). -/
def getPorts (n : NodeType) (d : PortDirection) : Except DagError (List PortHandle) :=
  match n with
  | .processor p =>
    match d with
    | .output => .ok p.outputPorts
    | .input => .ok p.inputPorts
  | .sink s =>
    match d with
    | .output => .error .invalidPortDirection
    | .input => .ok s.inputPorts
  | .source s =>
    match d with
    | .output => .ok s.outputPorts
    | .input => .error .invalidPortDirection

/-- Rust `Dag::connect` (`dag.rs` lines 99–128), in state-passing form: the
first component is the DAG after the call (`&mut self` in Rust), the second
the error if the call failed. -/
def connect (d : Dag) (src dst : Endpoint) : Dag × Option DagError :=
  match alookup d.nodes src.node with
  | none => (d, some (.unknownNode src.node))
  | some srcNode =>
    match alookup d.nodes dst.node with
    | none => (d, some (.unknownNode dst.node))
    | some dstNode =>
      match getPorts srcNode .output with
      | .error e => (d, some e)
      | .ok srcOutputPorts =>
        if src.port ∈ srcOutputPorts then
          match getPorts dstNode .input with
          | .error e => (d, some e)
          | .ok dstInputPorts =>
            if dst.port ∈ dstInputPorts then
              ({ d with edges := d.edges ++ [⟨src, dst⟩] }, none)
            else (d, some .unknownPort)
        else (d, some .unknownPort)

/-- Namespacing of a node handle in `Dag::merge`: `format!("{}/{}", ns, h)`. -/
def nsKey (ns : String) (h : NodeHandle) : NodeHandle :=
  ns ++ "/" ++ h

/-- Rewriting of one edge in `Dag::merge` (`dag.rs` lines 136–141). -/
def nsEdge (ns : String) (e : Edge) : Edge :=
  ⟨⟨nsKey ns e.src.node, e.src.port⟩, ⟨nsKey ns e.dst.node, e.dst.port⟩⟩

/-- Rust `Dag::merge` (`dag.rs` lines 130–142): re-key `other`'s nodes and
edges under `"{namespace}/{handle}"` and union them into `d`. -/
def merge (d : Dag) (ns : String) (other : Dag) : Dag :=
  { nodes := other.nodes.foldl (fun acc kv => insertA acc (nsKey ns kv.1) kv.2) d.nodes
    edges := other.edges.foldl (fun acc e => acc ++ [nsEdge ns e]) d.edges }

/-- Output ports a node declares (a sink declares none, `dag.rs` 82–88). -/
def declaredOutputPorts (n : NodeType) : List PortHandle :=
  match n with
  | .source s => s.outputPorts
  | .processor p => p.outputPorts
  | .sink _ => []

/-- Input ports a node declares (a source declares none, `dag.rs` 89–95). -/
def declaredInputPorts (n : NodeType) : List PortHandle :=
  match n with
  | .source _ => []
  | .processor p => p.inputPorts
  | .sink s => s.inputPorts

/-! ## Executor messages and errors (`mt_executor.rs`) -/

/-- Rust `ExecutorOperation` (`mt_executor.rs` lines 25–32). -/
inductive ExecutorOperation where
  | delete (seq : Nat) (old : Record)
  | insert (seq : Nat) (new : Record)
  | update (seq : Nat) (old : Record) (new : Record)
  | schemaUpdate (new : Schema)
  | terminate
deriving DecidableEq, Repr

/-- Rust `Operation` from `dozer_types`. -/
inductive Operation where
  | delete (old : Record)
  | insert (new : Record)
  | update (old : Record) (new : Record)
deriving DecidableEq, Repr

/-- Rust `impl Display for ExecutorOperation` (`mt_executor.rs` lines 34–45). -/
def ExecutorOperation.typeStr : ExecutorOperation → String
  | .delete _ _ => "Delete"
  | .update _ _ _ => "Update"
  | .insert _ _ => "Insert"
  | .schemaUpdate _ => "SchemaUpdate"
  | .terminate => "Terminate"

/-- Whether a message is a data operation (the `_` arm of the worker loops). -/
def ExecutorOperation.isDataOp : ExecutorOperation → Bool
  | .delete _ _ => true
  | .insert _ _ => true
  | .update _ _ _ => true
  | .schemaUpdate _ => false
  | .terminate => false

/-- Rust `StorageError` (`storage/errors.rs`, not under `src/`).  Modelled
from the spec: §4.4 names `InvalidRecord` for malformed checkpoint records
and §7 lists `DeserializationError(typ, reason)` among the storage-layer
failures. -/
inductive StorageError where
  | invalidRecord
  | deserializationError (typ : String)
deriving DecidableEq, Repr

/-- Rust `ExecutionError` (`dag/errors.rs`, not under `src/`).  Modelled from
the spec: the closed taxonomy of §7, restricted to the constructors the
embedded code raises.  `opError` stands for an error value returned by an
operator callback (`update_schema`/`process`), which the kernel only passes
through unchanged. -/
inductive ExecutionError where
  | invalidOperation (kind : String)
  | missingNodeInput (handle : NodeHandle)
  | missingNodeOutput (handle : NodeHandle)
  | schemaNotInitialized
  | invalidCheckpointState (handle : NodeHandle)
  | internalDatabaseError (e : StorageError)
  | invalidPortHandle (port : PortHandle)
  | sinkReceiverError (index : Nat)
  | processorReceiverError (index : Nat)
  | opError (code : Nat)
deriving DecidableEq, Repr

/-- Rust `MultiThreadedDagExecutor::map_to_op` (`mt_executor.rs` lines 75–84). -/
def mapToOp : ExecutorOperation → Except ExecutionError (Nat × Operation)
  | .delete seq old => .ok (seq, .delete old)
  | .insert seq new => .ok (seq, .insert new)
  | .update seq old new => .ok (seq, .update old new)
  | op => .error (.invalidOperation op.typeStr)

/-! ## Edge indexing (`mt_executor.rs` `index_edges`) -/

/-- One bounded channel created by `bounded(self.channel_buf_sz)`
(`mt_executor.rs` line 108); `id` is the index of the edge that created it
and `cap` its capacity.  The `Sender` and `Receiver` halves of one channel
are identified by the same `Chan` value. -/
structure Chan where
  id : Nat
  cap : Nat
deriving DecidableEq, Repr

abbrev PortChanMap := List (PortHandle × List Chan)

abbrev NodeChanMap := List (NodeHandle × PortChanMap)

/-- Port-level insertion (`mt_executor.rs` lines 111–127 / 129–146): push on
the existing channel list of the port, or create a fresh singleton list. -/
def insertPush (m : PortChanMap) (p : PortHandle) (c : Chan) : PortChanMap :=
  pushEntry m p c

/-- Node-level defaulting (`if !map.contains_key(node) { map.insert(node, HashMap::new()) }`,
`mt_executor.rs` lines 101–106). -/
def ensureNode (m : NodeChanMap) (n : NodeHandle) : NodeChanMap :=
  if (alookup m n).isSome then m else m ++ [(n, [])]

/-- Apply `f` to the port map bound at `n` (Rust `get_mut(n).unwrap()`). -/
def updateNode : NodeChanMap → NodeHandle → (PortChanMap → PortChanMap) → NodeChanMap
  | [], _, _ => []
  | (n₀, pm) :: rest, n, f =>
    if n₀ = n then (n₀, f pm) :: updateNode rest n f else (n₀, pm) :: updateNode rest n f

/-- One iteration of the `index_edges` loop (`mt_executor.rs` lines 100–147)
for the `i`-th edge. -/
def indexEdgesStep (bufsz : Nat) (maps : NodeChanMap × NodeChanMap) (ie : Nat × Edge) :
    NodeChanMap × NodeChanMap :=
  let senders := ensureNode maps.1 ie.2.src.node
  let receivers := ensureNode maps.2 ie.2.dst.node
  let chan : Chan := ⟨ie.1, bufsz⟩
  let receivers := updateNode receivers ie.2.dst.node (fun pm => insertPush pm ie.2.dst.port chan)
  let senders := updateNode senders ie.2.src.node (fun pm => insertPush pm ie.2.src.port chan)
  (senders, receivers)

/-- Rust `MultiThreadedDagExecutor::index_edges` (`mt_executor.rs` lines
86–150): the senders map and the receivers map. -/
def indexEdges (d : Dag) (bufsz : Nat) : NodeChanMap × NodeChanMap :=
  d.edges.enum.foldl (indexEdgesStep bufsz) ([], [])

/-- Two-level lookup with empty default: the channels held for `(n, p)`. -/
def chansAt (m : NodeChanMap) (n : NodeHandle) (p : PortHandle) : List Chan :=
  match alookup m n with
  | none => []
  | some pm => (alookup pm p).getD []

/-! ## Executor start validation (`mt_executor.rs` `start`) -/

/-- Rust `MultiThreadedDagExecutor::get_node_types` (`mt_executor.rs` lines
152–176). -/
def getNodeTypes (d : Dag) :
    List (NodeHandle × SourceFactory) × List (NodeHandle × ProcessorFactory) ×
      List (NodeHandle × SinkFactory) :=
  d.nodes.foldl
    (fun acc kv =>
      match kv.2 with
      | .source s => (acc.1 ++ [(kv.1, s)], acc.2.1, acc.2.2)
      | .processor p => (acc.1, acc.2.1 ++ [(kv.1, p)], acc.2.2)
      | .sink s => (acc.1, acc.2.1, acc.2.2 ++ [(kv.1, s)]))
    ([], [], [])

/-- Failure modes of `MultiThreadedDagExecutor::start`'s spawn phase.
`panicked` is the `Option::unwrap` panic on `senders.remove(&source).unwrap()`
(`mt_executor.rs` line 465); the other two are returned errors. -/
inductive StartErr where
  | missingInput (handle : NodeHandle)
  | missingOutput (handle : NodeHandle)
  | panicked
deriving DecidableEq, Repr

/-- The sink-spawning loop (`mt_executor.rs` lines 429–438): remove the
sink's receivers; a sink with none aborts with `MissingNodeInput` before its
own worker is spawned (earlier sinks stay spawned). -/
def runSinksLoop : List (NodeHandle × SinkFactory) → NodeChanMap → List NodeHandle →
    (NodeChanMap × List NodeHandle) ⊕ (List NodeHandle × StartErr)
  | [], receivers, spawned => .inl (receivers, spawned)
  | (h, _) :: rest, receivers, spawned =>
    let r := removeA receivers h
    match r.1 with
    | none => .inr (spawned, .missingInput h)
    | some _ => runSinksLoop rest r.2 (spawned ++ [h])

/-- The processor-spawning loop (`mt_executor.rs` lines 440–459). -/
def runProcessorsLoop : List (NodeHandle × ProcessorFactory) → NodeChanMap → NodeChanMap →
    List NodeHandle → (NodeChanMap × NodeChanMap × List NodeHandle) ⊕ (List NodeHandle × StartErr)
  | [], senders, receivers, spawned => .inl (senders, receivers, spawned)
  | (h, _) :: rest, senders, receivers, spawned =>
    let r := removeA receivers h
    match r.1 with
    | none => .inr (spawned, .missingInput h)
    | some _ =>
      let s := removeA senders h
      match s.1 with
      | none => .inr (spawned, .missingOutput h)
      | some _ => runProcessorsLoop rest s.2 r.2 (spawned ++ [h])

/-- The source-spawning loop (`mt_executor.rs` lines 461–468):
`senders.remove(&source).unwrap()` panics when the source has no senders
entry, i.e. no outgoing edge. -/
def runSourcesLoop : List (NodeHandle × SourceFactory) → NodeChanMap → List NodeHandle →
    List NodeHandle ⊕ (List NodeHandle × StartErr)
  | [], _, spawned => .inl spawned
  | (h, _) :: rest, senders, spawned =>
    let s := removeA senders h
    match s.1 with
    | none => .inr (spawned, .panicked)
    | some _ => runSourcesLoop rest s.2 (spawned ++ [h])

/-- The spawn/validation phase of `MultiThreadedDagExecutor::start`
(`mt_executor.rs` lines 424–468): which workers get spawned (in order:
sinks, then processors, then sources) and the abort — returned error or
panic — if one occurs.  The subsequent join phase, which collects the
spawned threads' results, is outside this model. -/
def startModel (d : Dag) (bufsz : Nat) : List NodeHandle × Option StartErr :=
  let maps := indexEdges d bufsz
  let nodeTypes := getNodeTypes d
  match runSinksLoop nodeTypes.2.2 maps.2 [] with
  | .inr (spawned, e) => (spawned, some e)
  | .inl (receivers, spawned) =>
    match runProcessorsLoop nodeTypes.2.1 maps.1 receivers spawned with
    | .inr (spawned, e) => (spawned, some e)
    | .inl (senders, _, spawned) =>
      match runSourcesLoop nodeTypes.1 senders spawned with
      | .inr (spawned, e) => (spawned, some e)
      | .inl spawned => (spawned, none)

/-- Whether some edge of the DAG enters node `h`. -/
def hasIncoming (d : Dag) (h : NodeHandle) : Bool :=
  d.edges.any (fun e => e.dst.node = h)

/-- Whether some edge of the DAG leaves node `h`. -/
def hasOutgoing (d : Dag) (h : NodeHandle) : Bool :=
  d.edges.any (fun e => e.src.node = h)

/-! ## Worker message loops (`mt_executor.rs` `start_sink` / `start_processor`)

Each worker is modelled as a deterministic loop over its dequeue trace: the
list of `(receiving port, message)` pairs in the order `sel.ready()` +
`recv()` delivered them.  Fan-in nondeterminism is captured by quantifying
over traces.  The operator callbacks (`update_schema`, `process`) and their
failure behavior are parameters; the loop is entered after a successful
`init`. -/

/-- Outcome of a worker loop: return `Ok`, return an error, or panic (the
processor's `todo!()` on a failed schema update, `mt_executor.rs` line 375). -/
inductive RunOutcome where
  | ok
  | err (e : ExecutionError)
  | panic
deriving DecidableEq, Repr

/-- Mutable state of the sink worker loop (`mt_executor.rs` lines 249–250):
received input schemas, the `schema_initialized` flag, plus the trace of
calls made to `snk.process` so far (port, seq, op). -/
structure SinkState where
  inputSchemas : List (PortHandle × Schema)
  schemaInitialized : Bool
  processed : List (PortHandle × Nat × Operation)
deriving DecidableEq, Repr

def initialSinkState : SinkState := ⟨[], false, []⟩

/-- Final result of a finished sink worker. -/
structure SinkDone where
  outcome : RunOutcome
  processed : List (PortHandle × Nat × Operation)
deriving DecidableEq, Repr

/-- One iteration of the sink worker loop (`mt_executor.rs` lines 256–308) on
a dequeued message `m`.  `updateSchema` is `snk.update_schema` and `process`
is `snk.process`, each returning `some e` when the operator fails. -/
def sinkStep (inputPorts : List PortHandle)
    (updateSchema : List (PortHandle × Schema) → Option ExecutionError)
    (process : PortHandle → Nat → Operation → Option ExecutionError)
    (s : SinkState) (m : PortHandle × ExecutorOperation) : SinkState ⊕ SinkDone :=
  match m.2 with
  | .schemaUpdate new =>
    let schemas := insertA s.inputSchemas m.1 new
    let count := (inputPorts.filter (fun p => !(alookup schemas p).isSome)).length
    if count = 0 then
      match updateSchema schemas with
      | some e => .inr ⟨.err e, s.processed⟩
      | none => .inl { s with inputSchemas := schemas, schemaInitialized := true }
    else .inl { s with inputSchemas := schemas }
  | .terminate => .inr ⟨.ok, s.processed⟩
  | op =>
    if s.schemaInitialized then
      match mapToOp op with
      | .error e => .inr ⟨.err e, s.processed⟩
      | .ok (seq, dataOp) =>
        let processed := s.processed ++ [(m.1, seq, dataOp)]
        match process m.1 seq dataOp with
        | some e => .inr ⟨.err e, processed⟩
        | none => .inl { s with processed := processed }
    else .inr ⟨.err .schemaNotInitialized, s.processed⟩

/-- The sink worker loop over a dequeue trace.  `.inl s` means the trace was
exhausted with the worker still looping in state `s`; `.inr d` means the
worker finished with result `d` (any remaining message is never dequeued). -/
def runSinkAux (inputPorts : List PortHandle)
    (updateSchema : List (PortHandle × Schema) → Option ExecutionError)
    (process : PortHandle → Nat → Operation → Option ExecutionError) :
    SinkState → List (PortHandle × ExecutorOperation) → SinkState ⊕ SinkDone
  | s, [] => .inl s
  | s, m :: ms =>
    match sinkStep inputPorts updateSchema process s m with
    | .inl s' => runSinkAux inputPorts updateSchema process s' ms
    | .inr d => .inr d

/-- Messages a processor's forwarder emits on behalf of the runtime. -/
inductive FwEvent where
  | schemaUpdate (port : PortHandle) (sch : Schema)
  | updateSeq (seq : Nat)
  | terminate (port : PortHandle)
deriving DecidableEq, Repr

/-- Rust `LocalChannelForwarder::send_term` (`forwarder.rs`, not under
`src/`).  Modelled from the spec: "`send_term()` — broadcast `Terminate` on
every port then drop its senders"; `fwPorts` are the ports of the senders
map the forwarder owns. -/
def sendTerm (fwPorts : List PortHandle) : List FwEvent :=
  fwPorts.map FwEvent.terminate

/-- Mutable state of the processor worker loop (`mt_executor.rs` lines
332–334), plus the trace of `proc.process` calls and of runtime-issued
forwarder events. -/
structure ProcState where
  inputSchemas : List (PortHandle × Schema)
  outputSchemas : List (PortHandle × Schema)
  schemaInitialized : Bool
  processed : List (PortHandle × Operation)
  sent : List FwEvent
deriving DecidableEq, Repr

def initialProcState : ProcState := ⟨[], [], false, [], []⟩

/-- Final result of a finished processor worker. -/
structure ProcDone where
  outcome : RunOutcome
  processed : List (PortHandle × Operation)
  sent : List FwEvent
deriving DecidableEq, Repr

/-- The `for out_port in proc_factory.get_output_ports()` loop run once all
input schemas are present (`mt_executor.rs` lines 364–379).
`updateSchema p schemas` is `proc.update_schema(p, &input_schemas)`; `none`
means the operator returned `Err`, which the worker turns into a `todo!()`
panic. -/
def procSchemaLoop (updateSchema : PortHandle → List (PortHandle × Schema) → Option Schema)
    (schemas : List (PortHandle × Schema)) :
    List PortHandle → ProcState → ProcState ⊕ ProcDone
  | [], s => .inl s
  | p :: ps, s =>
    match updateSchema p schemas with
    | some outSchema =>
      procSchemaLoop updateSchema schemas ps
        { s with
          outputSchemas := insertA s.outputSchemas p outSchema
          sent := s.sent ++ [.schemaUpdate p outSchema]
          schemaInitialized := true }
    | none => .inr ⟨.panic, s.processed, s.sent⟩

/-- One iteration of the processor worker loop (`mt_executor.rs` lines
351–406) on a dequeued message `m`. -/
def procStep (inputPorts outputPorts fwPorts : List PortHandle)
    (updateSchema : PortHandle → List (PortHandle × Schema) → Option Schema)
    (process : PortHandle → Operation → Option ExecutionError)
    (s : ProcState) (m : PortHandle × ExecutorOperation) : ProcState ⊕ ProcDone :=
  match m.2 with
  | .schemaUpdate new =>
    let schemas := insertA s.inputSchemas m.1 new
    let count := (inputPorts.filter (fun p => !(alookup schemas p).isSome)).length
    let s := { s with inputSchemas := schemas }
    if count = 0 then procSchemaLoop updateSchema schemas outputPorts s
    else .inl s
  | .terminate => .inr ⟨.ok, s.processed, s.sent ++ sendTerm fwPorts⟩
  | op =>
    if s.schemaInitialized then
      match mapToOp op with
      | .error e => .inr ⟨.err e, s.processed, s.sent⟩
      | .ok (seq, dataOp) =>
        let sent := s.sent ++ [.updateSeq seq]
        let processed := s.processed ++ [(m.1, dataOp)]
        match process m.1 dataOp with
        | some e => .inr ⟨.err e, processed, sent⟩
        | none => .inl { s with processed := processed, sent := sent }
    else .inr ⟨.err .schemaNotInitialized, s.processed, s.sent⟩

/-- The processor worker loop over a dequeue trace (see `runSinkAux`). -/
def runProcAux (inputPorts outputPorts fwPorts : List PortHandle)
    (updateSchema : PortHandle → List (PortHandle × Schema) → Option Schema)
    (process : PortHandle → Operation → Option ExecutionError) :
    ProcState → List (PortHandle × ExecutorOperation) → ProcState ⊕ ProcDone
  | s, [] => .inl s
  | s, m :: ms =>
    match procStep inputPorts outputPorts fwPorts updateSchema process s m with
    | .inl s' => runProcAux inputPorts outputPorts fwPorts updateSchema process s' ms
    | .inr d => .inr d

/-- Whether some message of `msgs` is a `SchemaUpdate` received on port `p`. -/
def hasSchemaFor (msgs : List (PortHandle × ExecutorOperation)) (p : PortHandle) : Bool :=
  msgs.any (fun m => m.1 = p && (match m.2 with | .schemaUpdate _ => true | _ => false))

/-! ## Checkpoint metadata (`executor_checkpoint.rs`) -/

abbrev Bytes := List UInt8

/-- A key/value record in a node's checkpoint database. -/
abbrev DbRecord := Bytes × Bytes

/-- The checkpoint stores on disk: `some records` when the env of
`base_path/<handle>` exists (with the ordered content of its
`__checkpoint__` database), `none` when it does not. -/
abbrev EnvState := NodeHandle → Option (List DbRecord)

/-- Identifier byte for source commit records (`forwarder.rs`, not under
`src/`).  Modelled from the spec: §4.4 gives `SOURCE_ID` = 0x01. -/
def SOURCE_ID_IDENTIFIER : UInt8 := 1

/-- Identifier byte for output schema records.  Modelled from the spec:
§4.4 gives `OUTPUT_SCHEMA` = 0x02. -/
def OUTPUT_SCHEMA_IDENTIFIER : UInt8 := 2

/-- Identifier byte for input schema records.  Modelled from the spec:
§4.4 gives `INPUT_SCHEMA` = 0x03. -/
def INPUT_SCHEMA_IDENTIFIER : UInt8 := 3

/-- Big-endian byte decoding (`u64::from_be_bytes` / `u16::from_be_bytes`). -/
def beNat (bs : Bytes) : Nat :=
  bs.foldl (fun a b => a * 256 + b.toNat) 0

/-- Rust `CheckpointMetadata` (`executor_checkpoint.rs` lines 36–40). -/
structure CheckpointMetadata where
  commits : List (NodeHandle × Nat)
  inputSchemas : List (PortHandle × Schema)
  outputSchemas : List (PortHandle × Schema)
deriving DecidableEq, Repr

/-- Result of a fallible Rust computation that can also panic. -/
inductive POutcome (α : Type) where
  | ok (v : α)
  | err (e : ExecutionError)
  | panic
deriving DecidableEq, Repr

/-- One iteration of the record loop in `get_node_checkpoint_metadata`
(`executor_checkpoint.rs` lines 99–144).  `dec` is `bincode::deserialize`
for `Schema` and `utf8` is `String::from_utf8_lossy`, both host functions
taken as parameters.  Panics: indexing `value.0[0]` on an empty key, and
`u64::from_be_bytes(value.1.try_into().unwrap())` on a value that is not
8 bytes long. -/
def parseRecord (dec : Bytes → Option Schema) (utf8 : Bytes → String)
    (st : CheckpointMetadata) (r : DbRecord) : POutcome CheckpointMetadata :=
  match r.1 with
  | [] => .panic
  | tag :: keyRest =>
    if tag = SOURCE_ID_IDENTIFIER then
      if r.2.length = 8 then
        .ok { st with commits := insertA st.commits (utf8 keyRest) (beNat r.2) }
      else .panic
    else if tag = OUTPUT_SCHEMA_IDENTIFIER then
      if keyRest.length = 2 then
        match dec r.2 with
        | some sch =>
          .ok { st with outputSchemas := insertA st.outputSchemas (beNat keyRest) sch }
        | none => .err (.internalDatabaseError (.deserializationError "Schema"))
      else .err (.invalidPortHandle 0)
    else if tag = INPUT_SCHEMA_IDENTIFIER then
      if keyRest.length = 2 then
        match dec r.2 with
        | some sch =>
          .ok { st with inputSchemas := insertA st.inputSchemas (beNat keyRest) sch }
        | none => .err (.internalDatabaseError (.deserializationError "Schema"))
      else .err (.invalidPortHandle 0)
    else .err (.internalDatabaseError .invalidRecord)

/-- The cursor loop over all records of the checkpoint database. -/
def parseRecords (dec : Bytes → Option Schema) (utf8 : Bytes → String) :
    CheckpointMetadata → List DbRecord → POutcome CheckpointMetadata
  | st, [] => .ok st
  | st, r :: rs =>
    match parseRecord dec utf8 st r with
    | .ok st' => parseRecords dec utf8 st' rs
    | .err e => .err e
    | .panic => .panic

/-- Rust `CheckpointMetadataReader::get_node_checkpoint_metadata`
(`executor_checkpoint.rs` lines 76–151): a missing env is
`InvalidCheckpointState`, an empty database (`!cur.first()?`) is
`InternalDatabaseError(InvalidRecord)`, otherwise the records are decoded. -/
def getNodeCheckpointMetadata (dec : Bytes → Option Schema) (utf8 : Bytes → String)
    (envs : EnvState) (name : NodeHandle) : POutcome CheckpointMetadata :=
  match envs name with
  | none => .err (.invalidCheckpointState name)
  | some recs =>
    match recs with
    | [] => .err (.internalDatabaseError .invalidRecord)
    | _ => parseRecords dec utf8 ⟨[], [], []⟩ recs

/-- Rust `LmdbEnvironmentManager::remove(path, node)`: after it, the node's
env no longer exists. -/
def removeEnv (envs : EnvState) (name : NodeHandle) : EnvState :=
  fun h => if h = name then none else envs h

/-- The node loop of `get_checkpoint_metadata` (`executor_checkpoint.rs`
lines 157–165), threading the filesystem state: a per-node failure removes
that node's env and skips the node. -/
def getCheckpointMetadataLoop (dec : Bytes → Option Schema) (utf8 : Bytes → String) :
    List (NodeHandle × NodeType) → List (NodeHandle × CheckpointMetadata) → EnvState →
      Option (List (NodeHandle × CheckpointMetadata) × EnvState)
  | [], all, envs => some (all, envs)
  | (h, _) :: rest, all, envs =>
    match getNodeCheckpointMetadata dec utf8 envs h with
    | .ok r => getCheckpointMetadataLoop dec utf8 rest (insertA all h r) envs
    | .err _ => getCheckpointMetadataLoop dec utf8 rest all (removeEnv envs h)
    | .panic => none

/-- Rust `CheckpointMetadataReader::get_checkpoint_metadata`
(`executor_checkpoint.rs` lines 153–167).  It always returns `Ok` in Rust;
`none` here models a propagated panic from a node's metadata read. -/
def getCheckpointMetadata (dec : Bytes → Option Schema) (utf8 : Bytes → String)
    (envs : EnvState) (d : Dag) :
    Option (List (NodeHandle × CheckpointMetadata) × EnvState) :=
  getCheckpointMetadataLoop dec utf8 d.nodes [] envs

/-! ## Dependency trees and consistency (`executor_checkpoint.rs`) -/

/-- Rust `Consistency` (`executor_checkpoint.rs` lines 17–20). -/
inductive Consistency where
  | fullyConsistent (seq : Nat)
  | partiallyConsistent (m : List (Nat × List NodeHandle))
deriving DecidableEq, Repr

/-- Rust `DependencyTreeNode` (`executor_checkpoint.rs` lines 22–34). -/
inductive DepTree where
  | node (handle : NodeHandle) (children : List DepTree)

/-- All handles occurring in a dependency tree, in preorder
(the traversal order of `get_dependency_tree_consistency_rec`). -/
def DepTree.handles : DepTree → List NodeHandle
  | .node h cs => h :: handlesList cs
where handlesList : List DepTree → List NodeHandle
  | [] => []
  | t :: ts => t.handles ++ handlesList ts

/-- Rust `CheckpointMetadataReader::get_source_dependency_tree`
(`executor_checkpoint.rs` lines 185–197).  The Rust recursion has no
termination measure (it relies on the graph being acyclic); the embedding
takes explicit fuel, and `depTree` supplies more fuel than any path in an
acyclic graph can consume, so on DAGs the two agree. -/
def getSourceDependencyTree (d : Dag) : Nat → NodeHandle → DepTree
  | 0, h => .node h []
  | fuel + 1, h =>
    .node h ((d.edges.filter (fun e => e.src.node = h)).map
      (fun e => getSourceDependencyTree d fuel e.dst.node))

/-- The dependency tree rooted at source `s` (root included, as in
`deps_trees.insert(src, root)`). -/
def depTree (d : Dag) (s : NodeHandle) : DepTree :=
  getSourceDependencyTree d (d.edges.length + 1) s

/-- Rust `res.entry(seq).or_insert_with(Vec::new)` followed by
`res.get_mut(&seq).unwrap().push(handle)` (`executor_checkpoint.rs` lines
210–211). -/
def pushSeq (res : List (Nat × List NodeHandle)) (seq : Nat) (h : NodeHandle) :
    List (Nat × List NodeHandle) :=
  pushEntry res seq h

/-- The sequence number recorded for tree node `h` against source `src`
(`executor_checkpoint.rs` lines 205–208): missing metadata or a missing
commits entry counts as 0. -/
def seqForNode (meta : List (NodeHandle × CheckpointMetadata)) (src h : NodeHandle) : Nat :=
  match alookup meta h with
  | some m => (alookup m.commits src).getD 0
  | none => 0

/-- Rust `get_dependency_tree_consistency_rec` (`executor_checkpoint.rs`
lines 199–216): push the current node's seq, then recurse into the children
left to right. -/
def consistencyRec (meta : List (NodeHandle × CheckpointMetadata)) (src : NodeHandle) :
    DepTree → List (Nat × List NodeHandle) → List (Nat × List NodeHandle)
  | .node h cs, res => consistencyRecList cs (pushSeq res (seqForNode meta src h) h)
where consistencyRecList : List DepTree → List (Nat × List NodeHandle) →
    List (Nat × List NodeHandle)
  | [], res => res
  | t :: ts, res => consistencyRecList ts (consistencyRec meta src t res)

/-- The classification of one source (`executor_checkpoint.rs` lines
220–229): one distinct seq means `FullyConsistent` of that seq, otherwise
`PartiallyConsistent` of the groups. -/
def consistencyOfSource (d : Dag) (meta : List (NodeHandle × CheckpointMetadata))
    (s : NodeHandle) : Consistency :=
  let res := consistencyRec meta s (depTree d s) []
  match res with
  | [(k, _)] => .fullyConsistent k
  | _ => .partiallyConsistent res

/-- The source nodes of the DAG (`executor_checkpoint.rs` lines 57–62). -/
def Dag.sources (d : Dag) : List NodeHandle :=
  (d.nodes.filter (fun kv => match kv.2 with | .source _ => true | _ => false)).map Prod.fst

/-- Rust `get_dependency_tree_consistency` (`executor_checkpoint.rs` lines
218–232): one classification per source. -/
def getDependencyTreeConsistency (d : Dag) (meta : List (NodeHandle × CheckpointMetadata)) :
    List (NodeHandle × Consistency) :=
  (Dag.sources d).map (fun s => (s, consistencyOfSource d meta s))

/-! ## Extractors and concrete sample data used by the theorems below -/

/-- Partial projection to a source factory. -/
def NodeType.sourceFac : NodeType → Option SourceFactory
  | .source f => some f
  | _ => none

/-- Partial projection to a processor factory. -/
def NodeType.procFac : NodeType → Option ProcessorFactory
  | .processor f => some f
  | _ => none

/-- Partial projection to a sink factory. -/
def NodeType.sinkFac : NodeType → Option SinkFactory
  | .sink f => some f
  | _ => none

/-- Sample DAG: one source "s" (output port 1) and one sink "k" (input port 2). -/
def sampleDag : Dag :=
  ⟨[("s", .source ⟨[1], false⟩), ("k", .sink ⟨[2], false⟩)], []⟩

/-- Sample DAG to merge: a sink "x" and one edge into it. -/
def sampleOther : Dag :=
  ⟨[("x", .sink ⟨[5], false⟩)],
   [⟨⟨"y", 1⟩, ⟨"x", 5⟩⟩]⟩

/-- A DAG whose only node is a source with no outgoing edge. -/
def c3Dag : Dag := ⟨[("s", .source ⟨[1], false⟩)], []⟩

/-- A DAG with a connected sink "k1", a disconnected sink "k2", and the
source "s" feeding "k1". -/
def c3WitnessDag : Dag :=
  ⟨[("k1", .sink ⟨[0], false⟩), ("k2", .sink ⟨[0], false⟩), ("s", .source ⟨[1], false⟩)],
   [⟨⟨"s", 1⟩, ⟨"k1", 0⟩⟩]⟩

/-- A concrete env state for the checkpoint witnesses: node "s" has a
corrupt database (unknown tag byte 9), node "k" has none. -/
def sampleEnvs : EnvState :=
  fun h => if h = "s" then some [([9], [])] else none

/-- A concrete env state with an existing but empty checkpoint database
for node "s". -/
def emptyDbEnvs : EnvState :=
  fun h => if h = "s" then some [] else none

/-- The DAG of the spec's checkpoint scenario: source "S" feeding the two
sinks "A" and "B". -/
def c1Dag : Dag :=
  ⟨[("S", .source ⟨[1], false⟩), ("A", .sink ⟨[1], false⟩), ("B", .sink ⟨[1], false⟩)],
   [⟨⟨"S", 1⟩, ⟨"A", 1⟩⟩, ⟨⟨"S", 1⟩, ⟨"B", 1⟩⟩]⟩

/-- Checkpoint metadata in which every node of `c1Dag` records commit
sequence 10 for source "S". -/
def c1Meta : List (NodeHandle × CheckpointMetadata) :=
  [("S", ⟨[("S", 10)], [], []⟩), ("A", ⟨[("S", 10)], [], []⟩), ("B", ⟨[("S", 10)], [], []⟩)]

/-! ## Lemmas about the association-list maps -/

theorem alookup_append {α β : Type} [DecidableEq α] (l₁ l₂ : List (α × β)) (k : α) :
    alookup (l₁ ++ l₂) k =
      match alookup l₁ k with
      | some v => some v
      | none => alookup l₂ k := by
  induction l₁ with
  | nil => simp [alookup]
  | cons kv rest ih =>
    obtain ⟨k', v'⟩ := kv
    by_cases h : k = k' <;> simp [alookup, h, ih]

theorem alookup_replaceA_self {α β : Type} [DecidableEq α]
    (m : List (α × β)) (k : α) (v : β) :
    alookup (replaceA m k v) k =
      if (alookup m k).isSome then some v else none := by
  induction m with
  | nil => simp [alookup, replaceA]
  | cons kv rest ih =>
    obtain ⟨k₀, v₀⟩ := kv
    by_cases h : k₀ = k
    · subst h; simp [alookup, replaceA]
    · have h' : k ≠ k₀ := fun hc => h hc.symm
      simp [alookup, replaceA, h, h', ih]

theorem alookup_replaceA_ne {α β : Type} [DecidableEq α]
    (m : List (α × β)) (k k' : α) (v : β) (h : k' ≠ k) :
    alookup (replaceA m k v) k' = alookup m k' := by
  induction m with
  | nil => simp [replaceA]
  | cons kv rest ih =>
    obtain ⟨k₀, v₀⟩ := kv
    by_cases hk : k₀ = k
    · subst hk
      simp [alookup, replaceA, if_neg h, ih]
    · by_cases hc : k' = k₀
      · simp [alookup, replaceA, hk, hc]
      · simp [alookup, replaceA, hk, hc, ih]

theorem alookup_insertA_self {α β : Type} [DecidableEq α]
    (m : List (α × β)) (k : α) (v : β) :
    alookup (insertA m k v) k = some v := by
  unfold insertA
  by_cases hs : (alookup m k).isSome
  · rw [if_pos hs, alookup_replaceA_self, if_pos hs]
  · rw [if_neg hs, alookup_append]
    have : alookup m k = none := by
      rcases h : alookup m k with _ | v'
      · rfl
      · rw [h] at hs; simp at hs
    simp [this, alookup]

theorem alookup_insertA_ne {α β : Type} [DecidableEq α]
    (m : List (α × β)) (k k' : α) (v : β) (h : k' ≠ k) :
    alookup (insertA m k v) k' = alookup m k' := by
  unfold insertA
  by_cases hs : (alookup m k).isSome
  · rw [if_pos hs, alookup_replaceA_ne _ _ _ _ h]
  · rw [if_neg hs, alookup_append]
    rcases hm : alookup m k' with _ | v'
    · simp [alookup, if_neg h]
    · simp

theorem alookup_isSome_of_mem_keys {α β : Type} [DecidableEq α]
    (m : List (α × β)) (k : α) (h : k ∈ m.map Prod.fst) :
    (alookup m k).isSome := by
  induction m with
  | nil => simp at h
  | cons kv rest ih =>
    obtain ⟨k', v'⟩ := kv
    simp only [List.map_cons, List.mem_cons] at h
    by_cases hk : k = k'
    · simp [alookup, hk]
    · simp only [alookup, if_neg hk]
      exact ih (h.resolve_left hk)

theorem alookup_eq_none_of_not_mem_keys {α β : Type} [DecidableEq α]
    (m : List (α × β)) (k : α) (h : k ∉ m.map Prod.fst) :
    alookup m k = none := by
  induction m with
  | nil => rfl
  | cons kv rest ih =>
    obtain ⟨k', v'⟩ := kv
    simp only [List.map_cons, List.mem_cons] at h
    push_neg at h
    simp only [alookup, if_neg h.1]
    exact ih h.2

/-! ## DAG construction: `connect` and `merge` (claims C5, C7, C10) -/

theorem connect_result (d : Dag) (src dst : Endpoint) :
    ((connect d src dst).1 = d ∧ (connect d src dst).2 ≠ none) ∨
      ((connect d src dst).1 = { d with edges := d.edges ++ [⟨src, dst⟩] } ∧
        (connect d src dst).2 = none) := by
  unfold connect
  rcases hsn : alookup d.nodes src.node with _ | sn
  · left; constructor <;> simp
  rcases hdn : alookup d.nodes dst.node with _ | dn
  · left; constructor <;> simp
  rcases hop : getPorts sn .output with e | outs
  · left; constructor <;> simp [hop]
  by_cases hsp : src.port ∈ outs
  · rcases hip : getPorts dn .input with e | ins
    · left; constructor <;> simp [hop, hip, hsp]
    by_cases hdp : dst.port ∈ ins
    · right; constructor <;> simp [hop, hip, hsp, hdp]
    · left; constructor <;> simp [hop, hip, hsp, hdp]
  · left; constructor <;> simp [hop, hsp]

theorem connect_snd_none_iff (d : Dag) (src dst : Endpoint) :
    (connect d src dst).2 = none ↔
      ((∃ sn, alookup d.nodes src.node = some sn ∧ src.port ∈ declaredOutputPorts sn) ∧
       (∃ dn, alookup d.nodes dst.node = some dn ∧ dst.port ∈ declaredInputPorts dn)) := by
  unfold connect
  rcases hsn : alookup d.nodes src.node with _ | sn
  · simp
  rcases hdn : alookup d.nodes dst.node with _ | dn
  · simp
  cases sn <;> cases dn <;>
    simp only [getPorts, declaredOutputPorts, declaredInputPorts] <;>
    (try split_ifs) <;> simp_all

theorem connect_err_shape (d : Dag) (src dst : Endpoint) (e : DagError)
    (h : (connect d src dst).2 = some e) :
    (∃ n, e = .unknownNode n) ∨ e = .invalidPortDirection ∨ e = .unknownPort := by
  cases e with
  | unknownNode n => exact Or.inl ⟨n, rfl⟩
  | invalidPortDirection => exact Or.inr (Or.inl rfl)
  | unknownPort => exact Or.inr (Or.inr rfl)

/-- C5: `Dag::connect` succeeds and appends the edge `(from, to)` exactly
when both endpoint nodes exist, `from.port` is among the declared output
ports of `from.node`, and `to.port` is among the declared input ports of
`to.node`; on any other input it fails with one of the three
construction-time errors. -/
theorem connect_ok_iff_valid_ports (d : Dag) (src dst : Endpoint) :
    ((connect d src dst).2 = none ↔
      ((∃ sn, alookup d.nodes src.node = some sn ∧ src.port ∈ declaredOutputPorts sn) ∧
       (∃ dn, alookup d.nodes dst.node = some dn ∧ dst.port ∈ declaredInputPorts dn)))
    ∧ ((connect d src dst).2 = none →
        (connect d src dst).1 = { d with edges := d.edges ++ [⟨src, dst⟩] })
    ∧ (∀ e, (connect d src dst).2 = some e →
        (∃ n, e = .unknownNode n) ∨ e = .invalidPortDirection ∨ e = .unknownPort) := by
  refine ⟨connect_snd_none_iff d src dst, ?_, fun e he => connect_err_shape d src dst e he⟩
  intro hok
  rcases connect_result d src dst with ⟨_, hne⟩ | ⟨hd, _⟩
  · exact absurd hok hne
  · exact hd

/-- Witness for C5 at a concrete DAG: connecting the declared output port 1
of source "s" to the declared input port 2 of sink "k" succeeds. -/
theorem connect_ok_iff_valid_ports_witness :
    (connect sampleDag ⟨"s", 1⟩ ⟨"k", 2⟩).2 = none :=
  (connect_ok_iff_valid_ports sampleDag ⟨"s", 1⟩ ⟨"k", 2⟩).1.mpr
    ⟨⟨.source ⟨[1], false⟩, by decide, by decide⟩, ⟨.sink ⟨[2], false⟩, by decide, by decide⟩⟩

/-- C10: when `Dag::connect` fails, the DAG is unchanged — its node map and
its edge list are exactly what they were before the call. -/
theorem connect_error_leaves_dag_unchanged (d : Dag) (src dst : Endpoint) (e : DagError)
    (h : (connect d src dst).2 = some e) : (connect d src dst).1 = d := by
  rcases connect_result d src dst with ⟨hd, _⟩ | ⟨_, hnone⟩
  · exact hd
  · rw [hnone] at h; cases h

/-- Witness for C10: a failing connect (unknown source node) leaves the
sample DAG unchanged. -/
theorem connect_error_leaves_dag_unchanged_witness :
    (connect sampleDag ⟨"zz", 1⟩ ⟨"k", 2⟩).1 = sampleDag :=
  connect_error_leaves_dag_unchanged sampleDag ⟨"zz", 1⟩ ⟨"k", 2⟩ (.unknownNode "zz") (by decide)

theorem nsKey_inj (ns : String) {h₁ h₂ : NodeHandle} (h : nsKey ns h₁ = nsKey ns h₂) :
    h₁ = h₂ := by
  unfold nsKey at h
  have hd : (ns ++ "/").data ++ h₁.data = (ns ++ "/").data ++ h₂.data := by
    have := congrArg String.data h
    simpa [String.append_assoc] using this
  have hbc : h₁.data = h₂.data := List.append_cancel_left hd
  cases h₁; cases h₂
  exact congrArg String.mk hbc

theorem foldl_append_singleton {α β : Type} (f : α → β) :
    ∀ (l : List α) (init : List β),
      l.foldl (fun acc e => acc ++ [f e]) init = init ++ l.map f
  | [], _ => by simp
  | x :: xs, init => by
    simp only [List.foldl_cons, List.map_cons]
    rw [foldl_append_singleton f xs]
    simp

theorem merge_fold_lookup_notmem (ns : String) :
    ∀ (l : List (NodeHandle × NodeType)) (acc : List (NodeHandle × NodeType)) (k : NodeHandle),
      (∀ h ∈ l.map Prod.fst, k ≠ nsKey ns h) →
      alookup (l.foldl (fun acc kv => insertA acc (nsKey ns kv.1) kv.2) acc) k = alookup acc k
  | [], _, _, _ => rfl
  | (h₀, v₀) :: rest, acc, k, hk => by
    simp only [List.foldl_cons]
    rw [merge_fold_lookup_notmem ns rest _ k
      (fun h hh => hk h (by simp [List.mem_cons, hh]))]
    exact alookup_insertA_ne acc (nsKey ns h₀) k v₀ (hk h₀ (by simp))

theorem merge_fold_lookup_mem (ns : String) :
    ∀ (l : List (NodeHandle × NodeType)) (acc : List (NodeHandle × NodeType))
      (h : NodeHandle) (nt : NodeType),
      (l.map Prod.fst).Nodup → alookup l h = some nt →
      alookup (l.foldl (fun acc kv => insertA acc (nsKey ns kv.1) kv.2) acc) (nsKey ns h) =
        some nt
  | [], _, _, _, _, hl => by cases hl
  | (h₀, v₀) :: rest, acc, h, nt, hnd, hl => by
    simp only [List.map_cons, List.nodup_cons] at hnd
    simp only [List.foldl_cons]
    by_cases hh : h = h₀
    · subst hh
      have hv : nt = v₀ := by
        simp [alookup] at hl; exact hl.symm
      subst hv
      rw [merge_fold_lookup_notmem ns rest _ (nsKey ns h)
        (fun h' hh' hc => hnd.1 (by rw [nsKey_inj ns hc]; exact hh'))]
      exact alookup_insertA_self acc (nsKey ns h) nt
    · have hl' : alookup rest h = some nt := by
        simpa [alookup, hh] using hl
      exact merge_fold_lookup_mem ns rest _ h nt hnd.2 hl'

/-- C7: `Dag::merge` adds exactly the nodes of `other` re-keyed as
`"{namespace}/{handle}"` and exactly the edges of `other` with both endpoint
node handles rewritten (ports unchanged), leaving every other key of the
receiver's node map and all its pre-existing edges as they were. -/
theorem merge_rekeys_and_unions (d : Dag) (ns : String) (other : Dag)
    (ho : (other.nodes.map Prod.fst).Nodup) :
    ((merge d ns other).edges = d.edges ++ other.edges.map (nsEdge ns))
    ∧ (∀ h nt, alookup other.nodes h = some nt →
        alookup (merge d ns other).nodes (nsKey ns h) = some nt)
    ∧ (∀ k, (∀ h ∈ other.nodes.map Prod.fst, k ≠ nsKey ns h) →
        alookup (merge d ns other).nodes k = alookup d.nodes k) := by
  refine ⟨foldl_append_singleton (nsEdge ns) other.edges d.edges, ?_, ?_⟩
  · intro h nt hl
    exact merge_fold_lookup_mem ns other.nodes d.nodes h nt ho hl
  · intro k hk
    exact merge_fold_lookup_notmem ns other.nodes d.nodes k hk

/-- Witness for C7: merging a one-node, one-edge DAG under namespace "ns"
re-keys its node to "ns/x", rewrites its edge endpoints, and leaves the
receiver's node "s" untouched. -/
theorem merge_rekeys_and_unions_witness :
    (merge sampleDag "ns" sampleOther).edges =
        sampleDag.edges ++ sampleOther.edges.map (nsEdge "ns") ∧
      alookup (merge sampleDag "ns" sampleOther).nodes (nsKey "ns" "x") =
        some (.sink ⟨[5], false⟩) ∧
      alookup (merge sampleDag "ns" sampleOther).nodes "s" = alookup sampleDag.nodes "s" := by
  have h := merge_rekeys_and_unions sampleDag "ns" sampleOther (by decide)
  refine ⟨h.1, h.2.1 "x" (.sink ⟨[5], false⟩) (by decide), h.2.2 "s" ?_⟩
  intro hh hmem
  simp only [sampleOther, List.map_cons, List.map_nil, List.mem_singleton] at hmem
  subst hmem
  decide

/-! ## Edge indexing (claim C6) -/

theorem chansAt_eq (m : NodeChanMap) (n : NodeHandle) (p : PortHandle) :
    chansAt m n p = (alookup ((alookup m n).getD []) p).getD [] := by
  unfold chansAt
  rcases alookup m n with _ | pm
  · simp [alookup]
  · simp

theorem alookup_pushA {α β : Type} [DecidableEq α]
    (m : List (α × List β)) (k k' : α) (x : β) :
    alookup (pushA m k x) k' =
      if k' = k then (alookup m k).map (fun xs => xs ++ [x]) else alookup m k' := by
  induction m with
  | nil => by_cases h : k' = k <;> simp [pushA, alookup, h]
  | cons kv rest ih =>
    obtain ⟨k₀, xs⟩ := kv
    by_cases hk : k₀ = k
    · subst hk
      by_cases hc : k' = k₀ <;> simp [pushA, alookup, hc, ih]
    · have hk2 : ¬(k = k₀) := fun h => hk h.symm
      by_cases hc : k' = k₀
      · have hck : ¬(k' = k) := by rw [hc]; exact hk
        simp [pushA, alookup, hk, hc, hck, hk2, ih]
      · simp [pushA, alookup, hk, hc, hk2, ih]

theorem alookup_pushEntry_self {α β : Type} [DecidableEq α]
    (m : List (α × List β)) (k : α) (x : β) :
    alookup (pushEntry m k x) k = some ((alookup m k).getD [] ++ [x]) := by
  unfold pushEntry
  by_cases hs : (alookup m k).isSome
  · rw [if_pos hs, alookup_pushA, if_pos rfl]
    rcases h : alookup m k with _ | xs
    · rw [h] at hs; simp at hs
    · simp
  · rw [if_neg hs, alookup_append]
    have : alookup m k = none := by
      rcases h : alookup m k with _ | xs
      · rfl
      · rw [h] at hs; simp at hs
    simp [this, alookup]

theorem alookup_pushEntry_ne {α β : Type} [DecidableEq α]
    (m : List (α × List β)) (k k' : α) (x : β) (h : k' ≠ k) :
    alookup (pushEntry m k x) k' = alookup m k' := by
  unfold pushEntry
  by_cases hs : (alookup m k).isSome
  · rw [if_pos hs, alookup_pushA, if_neg h]
  · rw [if_neg hs, alookup_append]
    rcases hm : alookup m k' with _ | xs
    · simp [alookup, if_neg h]
    · simp

theorem alookup_insertPush_self (pm : PortChanMap) (p : PortHandle) (c : Chan) :
    alookup (insertPush pm p c) p = some ((alookup pm p).getD [] ++ [c]) :=
  alookup_pushEntry_self pm p c

theorem alookup_insertPush_ne (pm : PortChanMap) (p p' : PortHandle) (c : Chan)
    (h : p' ≠ p) :
    alookup (insertPush pm p c) p' = alookup pm p' :=
  alookup_pushEntry_ne pm p p' c h

theorem alookup_ensureNode_self (m : NodeChanMap) (n : NodeHandle) :
    (alookup (ensureNode m n) n).isSome := by
  unfold ensureNode
  by_cases hs : (alookup m n).isSome
  · rw [if_pos hs]; exact hs
  · rw [if_neg hs, alookup_append]
    have : alookup m n = none := by
      rcases h : alookup m n with _ | pm
      · rfl
      · rw [h] at hs; simp at hs
    simp [this, alookup]

theorem chansAt_ensureNode (m : NodeChanMap) (n₀ n : NodeHandle) (p : PortHandle) :
    chansAt (ensureNode m n₀) n p = chansAt m n p := by
  rw [chansAt_eq, chansAt_eq]
  unfold ensureNode
  by_cases hs : (alookup m n₀).isSome
  · rw [if_pos hs]
  · rw [if_neg hs, alookup_append]
    rcases hm : alookup m n with _ | pm
    · by_cases hn : n = n₀
      · subst hn; simp [alookup]
      · simp [alookup, hn]
    · simp

theorem alookup_updateNode (m : NodeChanMap) (n n' : NodeHandle)
    (f : PortChanMap → PortChanMap) :
    alookup (updateNode m n f) n' =
      if n' = n then (alookup m n).map f else alookup m n' := by
  induction m with
  | nil => by_cases h : n' = n <;> simp [updateNode, alookup, h]
  | cons kv rest ih =>
    obtain ⟨n₀, pm⟩ := kv
    by_cases hk : n₀ = n
    · subst hk
      by_cases hc : n' = n₀ <;> simp [updateNode, alookup, hc, ih]
    · have hk2 : ¬(n = n₀) := fun h => hk h.symm
      by_cases hc : n' = n₀
      · have hck : ¬(n' = n) := by rw [hc]; exact hk
        simp [updateNode, alookup, hk, hc, hck, hk2, ih]
      · simp [updateNode, alookup, hk, hc, hk2, ih]

theorem chansAt_update_insertPush (m : NodeChanMap) (n₀ n : NodeHandle)
    (p₀ p : PortHandle) (c : Chan) (hsome : (alookup m n₀).isSome) :
    chansAt (updateNode m n₀ (fun pm => insertPush pm p₀ c)) n p =
      if n = n₀ ∧ p = p₀ then chansAt m n p ++ [c] else chansAt m n p := by
  rw [chansAt_eq, chansAt_eq, alookup_updateNode]
  by_cases hn : n = n₀
  · subst hn
    rw [if_pos rfl]
    rcases hm : alookup m n with _ | pm
    · rw [hm] at hsome; simp at hsome
    · simp only [Option.map_some', Option.getD_some]
      by_cases hp : p = p₀
      · subst hp
        rw [alookup_insertPush_self]
        simp
      · rw [if_neg (fun hand => hp hand.2), alookup_insertPush_ne pm p₀ p c hp]
  · rw [if_neg hn, if_neg (fun hand => hn hand.1)]

theorem chansAt_indexEdgesStep_fst (bufsz : Nat) (maps : NodeChanMap × NodeChanMap)
    (i : Nat) (e : Edge) (n : NodeHandle) (p : PortHandle) :
    chansAt (indexEdgesStep bufsz maps (i, e)).1 n p =
      if e.src = ⟨n, p⟩ then chansAt maps.1 n p ++ [⟨i, bufsz⟩] else chansAt maps.1 n p := by
  obtain ⟨⟨sn, sp⟩, ⟨dn, dp⟩⟩ := e
  show chansAt (updateNode (ensureNode maps.1 sn) sn
      (fun pm => insertPush pm sp ⟨i, bufsz⟩)) n p = _
  rw [chansAt_update_insertPush _ _ _ _ _ _ (alookup_ensureNode_self maps.1 sn),
    chansAt_ensureNode]
  by_cases hc : (⟨sn, sp⟩ : Endpoint) = ⟨n, p⟩
  · have h1 : n = sn := by cases hc; rfl
    have h2 : p = sp := by cases hc; rfl
    rw [if_pos ⟨h1, h2⟩, if_pos hc]
  · have : ¬(n = sn ∧ p = sp) := by
      rintro ⟨h1, h2⟩
      exact hc (by rw [h1, h2])
    rw [if_neg this, if_neg hc]

theorem chansAt_indexEdgesStep_snd (bufsz : Nat) (maps : NodeChanMap × NodeChanMap)
    (i : Nat) (e : Edge) (n : NodeHandle) (p : PortHandle) :
    chansAt (indexEdgesStep bufsz maps (i, e)).2 n p =
      if e.dst = ⟨n, p⟩ then chansAt maps.2 n p ++ [⟨i, bufsz⟩] else chansAt maps.2 n p := by
  obtain ⟨⟨sn, sp⟩, ⟨dn, dp⟩⟩ := e
  show chansAt (updateNode (ensureNode maps.2 dn) dn
      (fun pm => insertPush pm dp ⟨i, bufsz⟩)) n p = _
  rw [chansAt_update_insertPush _ _ _ _ _ _ (alookup_ensureNode_self maps.2 dn),
    chansAt_ensureNode]
  by_cases hc : (⟨dn, dp⟩ : Endpoint) = ⟨n, p⟩
  · have h1 : n = dn := by cases hc; rfl
    have h2 : p = dp := by cases hc; rfl
    rw [if_pos ⟨h1, h2⟩, if_pos hc]
  · have : ¬(n = dn ∧ p = dp) := by
      rintro ⟨h1, h2⟩
      exact hc (by rw [h1, h2])
    rw [if_neg this, if_neg hc]

theorem chansAt_indexEdges_fold (bufsz : Nat) :
    ∀ (l : List (Nat × Edge)) (maps : NodeChanMap × NodeChanMap)
      (n : NodeHandle) (p : PortHandle),
      chansAt (l.foldl (indexEdgesStep bufsz) maps).1 n p =
          chansAt maps.1 n p ++
            (l.filter (fun ie => ie.2.src = ⟨n, p⟩)).map (fun ie => Chan.mk ie.1 bufsz) ∧
        chansAt (l.foldl (indexEdgesStep bufsz) maps).2 n p =
          chansAt maps.2 n p ++
            (l.filter (fun ie => ie.2.dst = ⟨n, p⟩)).map (fun ie => Chan.mk ie.1 bufsz)
  | [], maps, n, p => by simp
  | (i, e) :: rest, maps, n, p => by
    have ih := chansAt_indexEdges_fold bufsz rest (indexEdgesStep bufsz maps (i, e)) n p
    simp only [List.foldl_cons]
    constructor
    · rw [ih.1, chansAt_indexEdgesStep_fst]
      by_cases hc : e.src = (⟨n, p⟩ : Endpoint)
      · simp [hc, List.filter_cons]
      · simp [hc, List.filter_cons]
    · rw [ih.2, chansAt_indexEdgesStep_snd]
      by_cases hc : e.dst = (⟨n, p⟩ : Endpoint)
      · simp [hc, List.filter_cons]
      · simp [hc, List.filter_cons]

/-- C6: `index_edges` builds, for every node `n` and port `p`, a senders
entry holding exactly one sender per edge whose `from` endpoint is `(n, p)`
(in edge order) and a receivers entry holding exactly one receiver per edge
whose `to` endpoint is `(n, p)`; the `i`-th edge contributes the sender and
receiver halves of the one bounded channel `⟨i, channel_buf_sz⟩`, so every
edge yields exactly one sender/receiver pair of one channel of capacity
`channel_buf_sz`. -/
theorem indexEdges_exact (d : Dag) (bufsz : Nat) (n : NodeHandle) (p : PortHandle) :
    chansAt (indexEdges d bufsz).1 n p =
        (d.edges.enum.filter (fun ie => ie.2.src = ⟨n, p⟩)).map
          (fun ie => Chan.mk ie.1 bufsz) ∧
      chansAt (indexEdges d bufsz).2 n p =
        (d.edges.enum.filter (fun ie => ie.2.dst = ⟨n, p⟩)).map
          (fun ie => Chan.mk ie.1 bufsz) := by
  have h := chansAt_indexEdges_fold bufsz d.edges.enum ([], []) n p
  unfold indexEdges
  constructor
  · rw [h.1]; rw [chansAt_eq]; simp [alookup]
  · rw [h.2]; rw [chansAt_eq]; simp [alookup]

/-! ## Executor start validation (claim C3) -/

theorem alookup_eraseKeyA {α β : Type} [DecidableEq α] (m : List (α × β)) (k n : α) :
    alookup (eraseKeyA m k) n = if n = k then none else alookup m n := by
  induction m with
  | nil => by_cases h : n = k <;> simp [alookup, eraseKeyA, h]
  | cons kv rest ih =>
    obtain ⟨k₀, v₀⟩ := kv
    by_cases hk : k₀ = k
    · subst hk
      by_cases hn : n = k₀
      · subst hn
        simp [alookup, eraseKeyA, ih]
      · simp [alookup, eraseKeyA, hn, ih]
    · by_cases hn : n = k₀
      · subst hn
        have hnk : ¬(n = k) := hk
        simp [alookup, eraseKeyA, hk, hnk]
      · simp [alookup, eraseKeyA, hk, hn, ih]

theorem mem_keys_unique {α β : Type} [DecidableEq α] {l : List (α × β)} {k : α} {a b : β}
    (hnd : (l.map Prod.fst).Nodup) (ha : (k, a) ∈ l) (hb : (k, b) ∈ l) : a = b := by
  induction l with
  | nil => cases ha
  | cons kv rest ih =>
    simp only [List.map_cons, List.nodup_cons] at hnd
    rcases List.mem_cons.mp ha with ha' | ha''
    · rcases List.mem_cons.mp hb with hb' | hb''
      · rw [← ha'] at hb'
        exact congrArg Prod.snd hb'.symm
      · exfalso
        apply hnd.1
        rw [← ha']
        simpa using List.mem_map_of_mem Prod.fst hb''
    · rcases List.mem_cons.mp hb with hb' | hb''
      · exfalso
        apply hnd.1
        rw [← hb']
        simpa using List.mem_map_of_mem Prod.fst ha''
      · exact ih hnd.2 ha'' hb''

theorem getNodeTypes_fold :
    ∀ (l : List (NodeHandle × NodeType)) (a : List (NodeHandle × SourceFactory))
      (b : List (NodeHandle × ProcessorFactory)) (c : List (NodeHandle × SinkFactory)),
      l.foldl
        (fun acc kv =>
          match kv.2 with
          | .source s => (acc.1 ++ [(kv.1, s)], acc.2.1, acc.2.2)
          | .processor p => (acc.1, acc.2.1 ++ [(kv.1, p)], acc.2.2)
          | .sink s => (acc.1, acc.2.1, acc.2.2 ++ [(kv.1, s)]))
        (a, b, c) =
      (a ++ l.filterMap (fun kv => (kv.2.sourceFac).map (Prod.mk kv.1)),
       b ++ l.filterMap (fun kv => (kv.2.procFac).map (Prod.mk kv.1)),
       c ++ l.filterMap (fun kv => (kv.2.sinkFac).map (Prod.mk kv.1)))
  | [], a, b, c => by simp
  | (h, nt) :: rest, a, b, c => by
    cases nt <;>
      simp [List.foldl_cons, List.filterMap_cons, NodeType.sourceFac, NodeType.procFac,
        NodeType.sinkFac, getNodeTypes_fold rest]

theorem getNodeTypes_eq (d : Dag) :
    getNodeTypes d =
      (d.nodes.filterMap (fun kv => (kv.2.sourceFac).map (Prod.mk kv.1)),
       d.nodes.filterMap (fun kv => (kv.2.procFac).map (Prod.mk kv.1)),
       d.nodes.filterMap (fun kv => (kv.2.sinkFac).map (Prod.mk kv.1))) := by
  unfold getNodeTypes
  rw [getNodeTypes_fold d.nodes [] [] []]
  simp

theorem filterMap_mk_fst_sublist {γ : Type} (g : NodeType → Option γ)
    (l : List (NodeHandle × NodeType)) :
    ((l.filterMap (fun kv => (g kv.2).map (Prod.mk kv.1))).map Prod.fst).Sublist
      (l.map Prod.fst) := by
  induction l with
  | nil => simp
  | cons kv rest ih =>
    obtain ⟨h, nt⟩ := kv
    rcases hg : g nt with _ | x
    · simp only [List.filterMap_cons, hg, List.map_cons, Option.map_none']
      exact ih.cons h
    · simp only [List.filterMap_cons, hg, List.map_cons, Option.map_some']
      exact ih.cons₂ h

theorem mem_getNodeTypes_sources (d : Dag) (h : NodeHandle) (f : SourceFactory) :
    (h, f) ∈ (getNodeTypes d).1 ↔ (h, .source f) ∈ d.nodes := by
  rw [getNodeTypes_eq]
  simp only [List.mem_filterMap]
  constructor
  · rintro ⟨⟨h', nt⟩, hmem, heq⟩
    cases nt <;> simp [NodeType.sourceFac] at heq
    obtain ⟨h1, h2⟩ := heq
    subst h1; subst h2
    exact hmem
  · intro hmem
    exact ⟨(h, .source f), hmem, by simp [NodeType.sourceFac]⟩

theorem mem_getNodeTypes_procs (d : Dag) (h : NodeHandle) (f : ProcessorFactory) :
    (h, f) ∈ (getNodeTypes d).2.1 ↔ (h, .processor f) ∈ d.nodes := by
  rw [getNodeTypes_eq]
  simp only [List.mem_filterMap]
  constructor
  · rintro ⟨⟨h', nt⟩, hmem, heq⟩
    cases nt <;> simp [NodeType.procFac] at heq
    obtain ⟨h1, h2⟩ := heq
    subst h1; subst h2
    exact hmem
  · intro hmem
    exact ⟨(h, .processor f), hmem, by simp [NodeType.procFac]⟩

theorem mem_getNodeTypes_sinks (d : Dag) (h : NodeHandle) (f : SinkFactory) :
    (h, f) ∈ (getNodeTypes d).2.2 ↔ (h, .sink f) ∈ d.nodes := by
  rw [getNodeTypes_eq]
  simp only [List.mem_filterMap]
  constructor
  · rintro ⟨⟨h', nt⟩, hmem, heq⟩
    cases nt <;> simp [NodeType.sinkFac] at heq
    obtain ⟨h1, h2⟩ := heq
    subst h1; subst h2
    exact hmem
  · intro hmem
    exact ⟨(h, .sink f), hmem, by simp [NodeType.sinkFac]⟩

theorem getNodeTypes_sources_keys_nodup (d : Dag) (hnd : (d.nodes.map Prod.fst).Nodup) :
    ((getNodeTypes d).1.map Prod.fst).Nodup := by
  rw [getNodeTypes_eq]
  exact (filterMap_mk_fst_sublist NodeType.sourceFac d.nodes).nodup hnd

theorem getNodeTypes_procs_keys_nodup (d : Dag) (hnd : (d.nodes.map Prod.fst).Nodup) :
    ((getNodeTypes d).2.1.map Prod.fst).Nodup := by
  rw [getNodeTypes_eq]
  exact (filterMap_mk_fst_sublist NodeType.procFac d.nodes).nodup hnd

theorem getNodeTypes_sinks_keys_nodup (d : Dag) (hnd : (d.nodes.map Prod.fst).Nodup) :
    ((getNodeTypes d).2.2.map Prod.fst).Nodup := by
  rw [getNodeTypes_eq]
  exact (filterMap_mk_fst_sublist NodeType.sinkFac d.nodes).nodup hnd

theorem isSome_ensureNode (m : NodeChanMap) (k n : NodeHandle) :
    (alookup (ensureNode m k) n).isSome ↔ ((alookup m n).isSome ∨ n = k) := by
  unfold ensureNode
  by_cases hs : (alookup m k).isSome
  · rw [if_pos hs]
    constructor
    · exact Or.inl
    · rintro (h | h)
      · exact h
      · subst h; exact hs
  · rw [if_neg hs, alookup_append]
    have hnone : alookup m k = none := Option.not_isSome_iff_eq_none.mp hs
    by_cases hn : n = k
    · subst hn; simp [hnone, alookup]
    · rcases hm : alookup m n with _ | pm <;> simp [alookup, hn, hm]

theorem isSome_updateNode (m : NodeChanMap) (k n : NodeHandle) (f : PortChanMap → PortChanMap) :
    (alookup (updateNode m k f) n).isSome = (alookup m n).isSome := by
  rw [alookup_updateNode]
  by_cases hn : n = k
  · subst hn
    rw [if_pos rfl]
    cases alookup m n <;> rfl
  · rw [if_neg hn]

theorem isSome_indexEdgesStep (bufsz : Nat) (maps : NodeChanMap × NodeChanMap)
    (i : Nat) (e : Edge) (n : NodeHandle) :
    ((alookup (indexEdgesStep bufsz maps (i, e)).1 n).isSome ↔
      ((alookup maps.1 n).isSome ∨ n = e.src.node)) ∧
    ((alookup (indexEdgesStep bufsz maps (i, e)).2 n).isSome ↔
      ((alookup maps.2 n).isSome ∨ n = e.dst.node)) := by
  obtain ⟨⟨sn, sp⟩, ⟨dn, dp⟩⟩ := e
  constructor
  · show (alookup (updateNode (ensureNode maps.1 sn) sn _) n).isSome ↔ _
    rw [isSome_updateNode]
    exact isSome_ensureNode maps.1 sn n
  · show (alookup (updateNode (ensureNode maps.2 dn) dn _) n).isSome ↔ _
    rw [isSome_updateNode]
    exact isSome_ensureNode maps.2 dn n

theorem isSome_indexEdges_fold (bufsz : Nat) :
    ∀ (l : List (Nat × Edge)) (maps : NodeChanMap × NodeChanMap) (n : NodeHandle),
      ((alookup (l.foldl (indexEdgesStep bufsz) maps).1 n).isSome ↔
        ((alookup maps.1 n).isSome ∨ ∃ ie ∈ l, n = ie.2.src.node)) ∧
      ((alookup (l.foldl (indexEdgesStep bufsz) maps).2 n).isSome ↔
        ((alookup maps.2 n).isSome ∨ ∃ ie ∈ l, n = ie.2.dst.node))
  | [], maps, n => by simp
  | (i, e) :: rest, maps, n => by
    have ih := isSome_indexEdges_fold bufsz rest (indexEdgesStep bufsz maps (i, e)) n
    have hstep := isSome_indexEdgesStep bufsz maps i e n
    simp only [List.foldl_cons]
    constructor
    · rw [ih.1, hstep.1]
      simp only [List.mem_cons]
      constructor
      · rintro ((hm | hm) | ⟨ie, hie, hn⟩)
        · exact Or.inl hm
        · exact Or.inr ⟨(i, e), Or.inl rfl, hm⟩
        · exact Or.inr ⟨ie, Or.inr hie, hn⟩
      · rintro (hm | ⟨ie, hie | hie, hn⟩)
        · exact Or.inl (Or.inl hm)
        · subst hie; exact Or.inl (Or.inr hn)
        · exact Or.inr ⟨ie, hie, hn⟩
    · rw [ih.2, hstep.2]
      simp only [List.mem_cons]
      constructor
      · rintro ((hm | hm) | ⟨ie, hie, hn⟩)
        · exact Or.inl hm
        · exact Or.inr ⟨(i, e), Or.inl rfl, hm⟩
        · exact Or.inr ⟨ie, Or.inr hie, hn⟩
      · rintro (hm | ⟨ie, hie | hie, hn⟩)
        · exact Or.inl (Or.inl hm)
        · subst hie; exact Or.inl (Or.inr hn)
        · exact Or.inr ⟨ie, hie, hn⟩

theorem exists_mem_enum {α : Type} (l : List α) (P : α → Prop) :
    (∃ ie ∈ l.enum, P ie.2) ↔ ∃ e ∈ l, P e := by
  constructor
  · rintro ⟨ie, hmem, hp⟩
    refine ⟨ie.2, ?_, hp⟩
    have : ie.2 ∈ l.enum.map Prod.snd := List.mem_map_of_mem _ hmem
    rwa [List.enum_map_snd] at this
  · rintro ⟨e, hmem, hp⟩
    have : e ∈ l.enum.map Prod.snd := by rwa [List.enum_map_snd]
    rcases List.mem_map.mp this with ⟨ie, hie, hsnd⟩
    exact ⟨ie, hie, by rwa [hsnd]⟩

theorem isSome_indexEdges_senders (d : Dag) (bufsz : Nat) (n : NodeHandle) :
    (alookup (indexEdges d bufsz).1 n).isSome ↔ hasOutgoing d n = true := by
  unfold indexEdges hasOutgoing
  rw [(isSome_indexEdges_fold bufsz d.edges.enum ([], []) n).1,
    exists_mem_enum d.edges (fun e => n = e.src.node), List.any_eq_true]
  constructor
  · rintro (habs | ⟨e, he, hn⟩)
    · simp [alookup] at habs
    · exact ⟨e, he, by simp [hn]⟩
  · rintro ⟨e, he, hn⟩
    simp only [decide_eq_true_eq] at hn
    exact Or.inr ⟨e, he, hn.symm⟩

theorem isSome_indexEdges_receivers (d : Dag) (bufsz : Nat) (n : NodeHandle) :
    (alookup (indexEdges d bufsz).2 n).isSome ↔ hasIncoming d n = true := by
  unfold indexEdges hasIncoming
  rw [(isSome_indexEdges_fold bufsz d.edges.enum ([], []) n).2,
    exists_mem_enum d.edges (fun e => n = e.dst.node), List.any_eq_true]
  constructor
  · rintro (habs | ⟨e, he, hn⟩)
    · simp [alookup] at habs
    · exact ⟨e, he, by simp [hn]⟩
  · rintro ⟨e, he, hn⟩
    simp only [decide_eq_true_eq] at hn
    exact Or.inr ⟨e, he, hn.symm⟩

theorem fst_ne_of_not_mem_keys {α β : Type} {l : List (α × β)} {k : α} {x : α × β}
    (hk : k ∉ l.map Prod.fst) (hx : x ∈ l) : ¬(x.1 = k) := by
  intro hc
  apply hk
  have hm := List.mem_map_of_mem Prod.fst hx
  rwa [hc] at hm

theorem ne_of_not_mem {α : Type} {l : List α} {k x : α}
    (hk : k ∉ l) (hx : x ∈ l) : ¬(x = k) := by
  intro hc
  apply hk
  rwa [hc] at hx

theorem runSinksLoop_ok :
    ∀ (sinks : List (NodeHandle × SinkFactory)) (receivers : NodeChanMap)
      (spawned : List NodeHandle),
      (sinks.map Prod.fst).Nodup →
      (∀ hf ∈ sinks, (alookup receivers hf.1).isSome) →
      ∃ receivers',
        runSinksLoop sinks receivers spawned =
            .inl (receivers', spawned ++ sinks.map Prod.fst) ∧
          ∀ n, n ∉ sinks.map Prod.fst → alookup receivers' n = alookup receivers n
  | [], receivers, spawned, _, _ =>
    ⟨receivers, by simp [runSinksLoop], fun n _ => rfl⟩
  | (h₀, f₀) :: rest, receivers, spawned, hnd, hsome => by
    simp only [List.map_cons, List.nodup_cons] at hnd
    have h₀some := hsome (h₀, f₀) (List.mem_cons_self _ _)
    rcases hr : alookup receivers h₀ with _ | pm
    · rw [hr] at h₀some; simp at h₀some
    · have hrest : ∀ hf ∈ rest, (alookup (eraseKeyA receivers h₀) hf.1).isSome := by
        intro hf hmem
        rw [alookup_eraseKeyA, if_neg (fst_ne_of_not_mem_keys hnd.1 hmem)]
        exact hsome hf (List.mem_cons_of_mem _ hmem)
      obtain ⟨receivers', hrun, hpres⟩ :=
        runSinksLoop_ok rest (eraseKeyA receivers h₀) (spawned ++ [h₀]) hnd.2 hrest
      refine ⟨receivers', ?_, ?_⟩
      · rw [runSinksLoop]
        simp only [removeA, hr]
        rw [hrun]
        simp
      · intro n hn
        have hn₀ : ¬(n = h₀) := fun hc => hn (by rw [hc]; exact List.mem_cons_self _ _)
        rw [hpres n (fun hmem => hn (List.mem_cons_of_mem _ hmem)),
          alookup_eraseKeyA, if_neg hn₀]

theorem runSinksLoop_err :
    ∀ (sinks : List (NodeHandle × SinkFactory)) (receivers : NodeChanMap)
      (spawned : List NodeHandle),
      (sinks.map Prod.fst).Nodup →
      (∀ hf ∈ sinks, hf.1 ∉ spawned) →
      (∃ hf ∈ sinks, alookup receivers hf.1 = none) →
      ∃ h, h ∈ sinks.map Prod.fst ∧ alookup receivers h = none ∧
        ∃ sp, runSinksLoop sinks receivers spawned = .inr (sp, .missingInput h) ∧ h ∉ sp
  | [], _, _, _, _, hbad => by simp at hbad
  | (h₀, f₀) :: rest, receivers, spawned, hnd, hfresh, hbad => by
    simp only [List.map_cons, List.nodup_cons] at hnd
    rcases hr : alookup receivers h₀ with _ | pm
    · refine ⟨h₀, by simp, hr, spawned, ?_, hfresh (h₀, f₀) (List.mem_cons_self _ _)⟩
      rw [runSinksLoop]
      simp only [removeA, hr]
    · have hbad' : ∃ hf ∈ rest, alookup (eraseKeyA receivers h₀) hf.1 = none := by
        rcases hbad with ⟨hf, hmem, hnone⟩
        rcases List.mem_cons.mp hmem with heq | hmem'
        · have hf1 : hf.1 = h₀ := by rw [heq]
          rw [hf1, hr] at hnone
          cases hnone
        · refine ⟨hf, hmem', ?_⟩
          rw [alookup_eraseKeyA, if_neg (fst_ne_of_not_mem_keys hnd.1 hmem')]
          exact hnone
      have hfresh' : ∀ hf ∈ rest, hf.1 ∉ spawned ++ [h₀] := by
        intro hf hmem hc
        rcases List.mem_append.mp hc with hc' | hc'
        · exact hfresh hf (List.mem_cons_of_mem _ hmem) hc'
        · rw [List.mem_singleton] at hc'
          exact fst_ne_of_not_mem_keys hnd.1 hmem hc'
      obtain ⟨h, hmem, hnone, sp, hrun, hsp⟩ :=
        runSinksLoop_err rest (eraseKeyA receivers h₀) (spawned ++ [h₀]) hnd.2 hfresh' hbad'
      refine ⟨h, List.mem_cons_of_mem _ hmem, ?_, sp, ?_, hsp⟩
      · rw [alookup_eraseKeyA] at hnone
        by_cases hc : h = h₀
        · exact absurd (by rwa [hc] at hmem) hnd.1
        · rwa [if_neg hc] at hnone
      · rw [runSinksLoop]
        simp only [removeA, hr]
        exact hrun

theorem runProcessorsLoop_ok :
    ∀ (procs : List (NodeHandle × ProcessorFactory)) (senders receivers : NodeChanMap)
      (spawned : List NodeHandle),
      (procs.map Prod.fst).Nodup →
      (∀ hf ∈ procs, (alookup receivers hf.1).isSome) →
      (∀ hf ∈ procs, (alookup senders hf.1).isSome) →
      ∃ senders' receivers',
        runProcessorsLoop procs senders receivers spawned =
            .inl (senders', receivers', spawned ++ procs.map Prod.fst) ∧
          ∀ n, n ∉ procs.map Prod.fst → alookup senders' n = alookup senders n
  | [], senders, receivers, spawned, _, _, _ =>
    ⟨senders, receivers, by simp [runProcessorsLoop], fun n _ => rfl⟩
  | (h₀, f₀) :: rest, senders, receivers, spawned, hnd, hrcv, hsnd => by
    simp only [List.map_cons, List.nodup_cons] at hnd
    have h₀rcv := hrcv (h₀, f₀) (List.mem_cons_self _ _)
    have h₀snd := hsnd (h₀, f₀) (List.mem_cons_self _ _)
    rcases hr : alookup receivers h₀ with _ | pr
    · rw [hr] at h₀rcv; simp at h₀rcv
    rcases hs : alookup senders h₀ with _ | ps
    · rw [hs] at h₀snd; simp at h₀snd
    have hrcv' : ∀ hf ∈ rest, (alookup (eraseKeyA receivers h₀) hf.1).isSome := by
      intro hf hmem
      rw [alookup_eraseKeyA, if_neg (fst_ne_of_not_mem_keys hnd.1 hmem)]
      exact hrcv hf (List.mem_cons_of_mem _ hmem)
    have hsnd' : ∀ hf ∈ rest, (alookup (eraseKeyA senders h₀) hf.1).isSome := by
      intro hf hmem
      rw [alookup_eraseKeyA, if_neg (fst_ne_of_not_mem_keys hnd.1 hmem)]
      exact hsnd hf (List.mem_cons_of_mem _ hmem)
    obtain ⟨senders', receivers', hrun, hpres⟩ :=
      runProcessorsLoop_ok rest (eraseKeyA senders h₀) (eraseKeyA receivers h₀)
        (spawned ++ [h₀]) hnd.2 hrcv' hsnd'
    refine ⟨senders', receivers', ?_, ?_⟩
    · rw [runProcessorsLoop]
      simp only [removeA, hr, hs]
      rw [hrun]
      simp
    · intro n hn
      have hn₀ : ¬(n = h₀) := fun hc => hn (by rw [hc]; exact List.mem_cons_self _ _)
      rw [hpres n (fun hmem => hn (List.mem_cons_of_mem _ hmem)),
        alookup_eraseKeyA, if_neg hn₀]

theorem runProcessorsLoop_err :
    ∀ (procs : List (NodeHandle × ProcessorFactory)) (senders receivers : NodeChanMap)
      (spawned : List NodeHandle),
      (procs.map Prod.fst).Nodup →
      (∀ hf ∈ procs, hf.1 ∉ spawned) →
      (∃ hf ∈ procs, alookup receivers hf.1 = none ∨ alookup senders hf.1 = none) →
      ∃ h, h ∈ procs.map Prod.fst ∧
        ∃ sp, h ∉ sp ∧
          ((alookup receivers h = none ∧
              runProcessorsLoop procs senders receivers spawned =
                .inr (sp, .missingInput h)) ∨
           (alookup receivers h ≠ none ∧ alookup senders h = none ∧
              runProcessorsLoop procs senders receivers spawned =
                .inr (sp, .missingOutput h)))
  | [], _, _, _, _, _, hbad => by simp at hbad
  | (h₀, f₀) :: rest, senders, receivers, spawned, hnd, hfresh, hbad => by
    simp only [List.map_cons, List.nodup_cons] at hnd
    rcases hr : alookup receivers h₀ with _ | pr
    · refine ⟨h₀, by simp, spawned, hfresh (h₀, f₀) (List.mem_cons_self _ _),
        Or.inl ⟨hr, ?_⟩⟩
      rw [runProcessorsLoop]
      simp only [removeA, hr]
    · rcases hs : alookup senders h₀ with _ | ps
      · refine ⟨h₀, by simp, spawned, hfresh (h₀, f₀) (List.mem_cons_self _ _),
          Or.inr ⟨by rw [hr]; exact fun hc => Option.noConfusion hc, hs, ?_⟩⟩
        rw [runProcessorsLoop]
        simp only [removeA, hr, hs]
      · have hbad' : ∃ hf ∈ rest,
            alookup (eraseKeyA receivers h₀) hf.1 = none ∨
              alookup (eraseKeyA senders h₀) hf.1 = none := by
          rcases hbad with ⟨hf, hmem, hnone⟩
          rcases List.mem_cons.mp hmem with heq | hmem'
          · have hf1 : hf.1 = h₀ := by rw [heq]
            rw [hf1, hr, hs] at hnone
            rcases hnone with hnone | hnone <;> cases hnone
          · have hne := fst_ne_of_not_mem_keys hnd.1 hmem'
            refine ⟨hf, hmem', ?_⟩
            rw [alookup_eraseKeyA, alookup_eraseKeyA, if_neg hne, if_neg hne]
            exact hnone
        have hfresh' : ∀ hf ∈ rest, hf.1 ∉ spawned ++ [h₀] := by
          intro hf hmem hc
          rcases List.mem_append.mp hc with hc' | hc'
          · exact hfresh hf (List.mem_cons_of_mem _ hmem) hc'
          · rw [List.mem_singleton] at hc'
            exact fst_ne_of_not_mem_keys hnd.1 hmem hc'
        obtain ⟨h, hmem, sp, hsp, hcase⟩ :=
          runProcessorsLoop_err rest (eraseKeyA senders h₀) (eraseKeyA receivers h₀)
            (spawned ++ [h₀]) hnd.2 hfresh' hbad'
        have hne : ¬(h = h₀) := ne_of_not_mem hnd.1 hmem
        refine ⟨h, List.mem_cons_of_mem _ hmem, sp, hsp, ?_⟩
        rcases hcase with ⟨hnone, hrun⟩ | ⟨hsome, hnone, hrun⟩
        · rw [alookup_eraseKeyA, if_neg hne] at hnone
          refine Or.inl ⟨hnone, ?_⟩
          rw [runProcessorsLoop]
          simp only [removeA, hr, hs]
          exact hrun
        · rw [alookup_eraseKeyA, if_neg hne] at hsome hnone
          refine Or.inr ⟨hsome, hnone, ?_⟩
          rw [runProcessorsLoop]
          simp only [removeA, hr, hs]
          exact hrun

theorem runSourcesLoop_err :
    ∀ (sources : List (NodeHandle × SourceFactory)) (senders : NodeChanMap)
      (spawned : List NodeHandle),
      (sources.map Prod.fst).Nodup →
      (∃ hf ∈ sources, alookup senders hf.1 = none) →
      ∃ sp, runSourcesLoop sources senders spawned = .inr (sp, .panicked)
  | [], _, _, _, hbad => by simp at hbad
  | (h₀, f₀) :: rest, senders, spawned, hnd, hbad => by
    simp only [List.map_cons, List.nodup_cons] at hnd
    rcases hs : alookup senders h₀ with _ | ps
    · refine ⟨spawned, ?_⟩
      rw [runSourcesLoop]
      simp only [removeA, hs]
    · have hbad' : ∃ hf ∈ rest, alookup (eraseKeyA senders h₀) hf.1 = none := by
        rcases hbad with ⟨hf, hmem, hnone⟩
        rcases List.mem_cons.mp hmem with heq | hmem'
        · have hf1 : hf.1 = h₀ := by rw [heq]
          rw [hf1, hs] at hnone
          cases hnone
        · refine ⟨hf, hmem', ?_⟩
          rw [alookup_eraseKeyA, if_neg (fst_ne_of_not_mem_keys hnd.1 hmem')]
          exact hnone
      obtain ⟨sp, hrun⟩ := runSourcesLoop_err rest (eraseKeyA senders h₀) (spawned ++ [h₀])
        hnd.2 hbad'
      refine ⟨sp, ?_⟩
      rw [runSourcesLoop]
      simp only [removeA, hs]
      exact hrun

theorem bool_eq_false_of_ne_true {b : Bool} (h : ¬(b = true)) : b = false := by
  cases b
  · rfl
  · exact absurd rfl h

theorem receivers_none_iff (d : Dag) (bufsz : Nat) (h : NodeHandle) :
    alookup (indexEdges d bufsz).2 h = none ↔ hasIncoming d h = false := by
  rw [← Option.not_isSome_iff_eq_none, isSome_indexEdges_receivers]
  constructor
  · intro hh; exact bool_eq_false_of_ne_true hh
  · intro hh hc; rw [hh] at hc; cases hc

theorem senders_none_iff (d : Dag) (bufsz : Nat) (h : NodeHandle) :
    alookup (indexEdges d bufsz).1 h = none ↔ hasOutgoing d h = false := by
  rw [← Option.not_isSome_iff_eq_none, isSome_indexEdges_senders]
  constructor
  · intro hh; exact bool_eq_false_of_ne_true hh
  · intro hh hc; rw [hh] at hc; cases hc

theorem disjoint_sink_proc_keys (d : Dag) (hnd : (d.nodes.map Prod.fst).Nodup)
    (h : NodeHandle) (h1 : h ∈ (getNodeTypes d).2.2.map Prod.fst)
    (h2 : h ∈ (getNodeTypes d).2.1.map Prod.fst) : False := by
  rcases List.mem_map.mp h1 with ⟨⟨xh, xf⟩, hx, hxf⟩
  rcases List.mem_map.mp h2 with ⟨⟨yh, yf⟩, hy, hyf⟩
  simp only at hxf hyf
  rw [hxf] at hx
  rw [hyf] at hy
  have hx' := (mem_getNodeTypes_sinks d h xf).mp hx
  have hy' := (mem_getNodeTypes_procs d h yf).mp hy
  cases mem_keys_unique hnd hx' hy'

theorem disjoint_sink_source_keys (d : Dag) (hnd : (d.nodes.map Prod.fst).Nodup)
    (h : NodeHandle) (h1 : h ∈ (getNodeTypes d).2.2.map Prod.fst)
    (h2 : h ∈ (getNodeTypes d).1.map Prod.fst) : False := by
  rcases List.mem_map.mp h1 with ⟨⟨xh, xf⟩, hx, hxf⟩
  rcases List.mem_map.mp h2 with ⟨⟨yh, yf⟩, hy, hyf⟩
  simp only at hxf hyf
  rw [hxf] at hx
  rw [hyf] at hy
  have hx' := (mem_getNodeTypes_sinks d h xf).mp hx
  have hy' := (mem_getNodeTypes_sources d h yf).mp hy
  cases mem_keys_unique hnd hx' hy'

theorem disjoint_proc_source_keys (d : Dag) (hnd : (d.nodes.map Prod.fst).Nodup)
    (h : NodeHandle) (h1 : h ∈ (getNodeTypes d).2.1.map Prod.fst)
    (h2 : h ∈ (getNodeTypes d).1.map Prod.fst) : False := by
  rcases List.mem_map.mp h1 with ⟨⟨xh, xf⟩, hx, hxf⟩
  rcases List.mem_map.mp h2 with ⟨⟨yh, yf⟩, hy, hyf⟩
  simp only at hxf hyf
  rw [hxf] at hx
  rw [hyf] at hy
  have hx' := (mem_getNodeTypes_procs d h xf).mp hx
  have hy' := (mem_getNodeTypes_sources d h yf).mp hy
  cases mem_keys_unique hnd hx' hy'

/-- C3 (amended): if some sink or processor has no incoming edge, or some
processor has no outgoing edge, `MultiThreadedDagExecutor::start` aborts
during the spawn phase with `MissingNodeInput(h)` or `MissingNodeOutput(h)`
for such a deficient node `h`, before `h`'s own worker is spawned — though
workers validated earlier may already have been spawned, not "before
spawning any worker thread"; and when sinks and processors validate but
some source has no outgoing edge, `start` panics on
`senders.remove(&source).unwrap()` instead of returning
`MissingNodeOutput`. -/
theorem start_validation_amended (d : Dag) (bufsz : Nat)
    (hnd : (d.nodes.map Prod.fst).Nodup) :
    (((∃ hf ∈ (getNodeTypes d).2.2, hasIncoming d hf.1 = false) ∨
      (∃ hf ∈ (getNodeTypes d).2.1,
        hasIncoming d hf.1 = false ∨ hasOutgoing d hf.1 = false)) →
      ∃ h, h ∉ (startModel d bufsz).1 ∧
        (((startModel d bufsz).2 = some (.missingInput h) ∧ hasIncoming d h = false ∧
            (h ∈ (getNodeTypes d).2.2.map Prod.fst ∨
              h ∈ (getNodeTypes d).2.1.map Prod.fst)) ∨
         ((startModel d bufsz).2 = some (.missingOutput h) ∧ hasOutgoing d h = false ∧
            h ∈ (getNodeTypes d).2.1.map Prod.fst)))
    ∧ ((∀ hf ∈ (getNodeTypes d).2.2, hasIncoming d hf.1 = true) →
       (∀ hf ∈ (getNodeTypes d).2.1,
          hasIncoming d hf.1 = true ∧ hasOutgoing d hf.1 = true) →
       (∃ hf ∈ (getNodeTypes d).1, hasOutgoing d hf.1 = false) →
       (startModel d bufsz).2 = some .panicked) := by
  have hndSinks := getNodeTypes_sinks_keys_nodup d hnd
  have hndProcs := getNodeTypes_procs_keys_nodup d hnd
  have hndSources := getNodeTypes_sources_keys_nodup d hnd
  constructor
  · intro hyp
    by_cases hbs : ∃ hf ∈ (getNodeTypes d).2.2, hasIncoming d hf.1 = false
    · rcases hbs with ⟨hf, hmem, hfalse⟩
      have hbad : ∃ hf ∈ (getNodeTypes d).2.2,
          alookup (indexEdges d bufsz).2 hf.1 = none :=
        ⟨hf, hmem, (receivers_none_iff d bufsz hf.1).mpr hfalse⟩
      obtain ⟨h, hkeys, hnone, sp, hrun, hsp⟩ :=
        runSinksLoop_err (getNodeTypes d).2.2 (indexEdges d bufsz).2 [] hndSinks
          (fun _ _ => List.not_mem_nil _) hbad
      have hsm : startModel d bufsz = (sp, some (.missingInput h)) := by
        simp only [startModel, hrun]
      refine ⟨h, ?_, Or.inl ⟨by rw [hsm], (receivers_none_iff d bufsz h).mp hnone,
        Or.inl hkeys⟩⟩
      rw [hsm]
      exact hsp
    · have hallsinks : ∀ hf ∈ (getNodeTypes d).2.2,
          (alookup (indexEdges d bufsz).2 hf.1).isSome := by
        intro hf hmem
        rw [isSome_indexEdges_receivers]
        by_cases hc : hasIncoming d hf.1 = true
        · exact hc
        · exact absurd ⟨hf, hmem, bool_eq_false_of_ne_true hc⟩ hbs
      obtain ⟨receivers', hrun1, hpres⟩ :=
        runSinksLoop_ok (getNodeTypes d).2.2 (indexEdges d bufsz).2 [] hndSinks hallsinks
      have hbp := hyp.resolve_left hbs
      rcases hbp with ⟨hf, hmem, hfcase⟩
      have hfnotsink : hf.1 ∉ (getNodeTypes d).2.2.map Prod.fst := by
        intro hc
        exact disjoint_sink_proc_keys d hnd hf.1 hc (List.mem_map_of_mem Prod.fst hmem)
      have hbad : ∃ hf ∈ (getNodeTypes d).2.1,
          alookup receivers' hf.1 = none ∨
            alookup (indexEdges d bufsz).1 hf.1 = none := by
        refine ⟨hf, hmem, ?_⟩
        rcases hfcase with hin | hout
        · left
          rw [hpres hf.1 hfnotsink]
          exact (receivers_none_iff d bufsz hf.1).mpr hin
        · right
          exact (senders_none_iff d bufsz hf.1).mpr hout
      have hfresh : ∀ hf ∈ (getNodeTypes d).2.1,
          hf.1 ∉ ([] : List NodeHandle) ++ (getNodeTypes d).2.2.map Prod.fst := by
        intro hf' hmem' hc
        rw [List.nil_append] at hc
        exact disjoint_sink_proc_keys d hnd hf'.1 hc (List.mem_map_of_mem Prod.fst hmem')
      obtain ⟨h, hkeys, sp, hsp, hcase⟩ :=
        runProcessorsLoop_err (getNodeTypes d).2.1 (indexEdges d bufsz).1 receivers'
          ([] ++ (getNodeTypes d).2.2.map Prod.fst) hndProcs hfresh hbad
      have hnotsink : h ∉ (getNodeTypes d).2.2.map Prod.fst := by
        intro hc
        exact disjoint_sink_proc_keys d hnd h hc hkeys
      rcases hcase with ⟨hnone, hrun2⟩ | ⟨_, hnone, hrun2⟩
      · have hsm : startModel d bufsz = (sp, some (.missingInput h)) := by
          simp only [startModel, hrun1, hrun2]
        refine ⟨h, by rw [hsm]; exact hsp, Or.inl ⟨by rw [hsm], ?_, Or.inr hkeys⟩⟩
        rw [hpres h hnotsink] at hnone
        exact (receivers_none_iff d bufsz h).mp hnone
      · have hsm : startModel d bufsz = (sp, some (.missingOutput h)) := by
          simp only [startModel, hrun1, hrun2]
        exact ⟨h, by rw [hsm]; exact hsp, Or.inr ⟨by rw [hsm],
          (senders_none_iff d bufsz h).mp hnone, hkeys⟩⟩
  · intro hsinks hprocs hbadsrc
    have hallsinks : ∀ hf ∈ (getNodeTypes d).2.2,
        (alookup (indexEdges d bufsz).2 hf.1).isSome := by
      intro hf hmem
      rw [isSome_indexEdges_receivers]
      exact hsinks hf hmem
    obtain ⟨receivers', hrun1, hpres1⟩ :=
      runSinksLoop_ok (getNodeTypes d).2.2 (indexEdges d bufsz).2 [] hndSinks hallsinks
    have hallprocs_rcv : ∀ hf ∈ (getNodeTypes d).2.1, (alookup receivers' hf.1).isSome := by
      intro hf hmem
      have hnotsink : hf.1 ∉ (getNodeTypes d).2.2.map Prod.fst := by
        intro hc
        exact disjoint_sink_proc_keys d hnd hf.1 hc (List.mem_map_of_mem Prod.fst hmem)
      rw [hpres1 hf.1 hnotsink, isSome_indexEdges_receivers]
      exact (hprocs hf hmem).1
    have hallprocs_snd : ∀ hf ∈ (getNodeTypes d).2.1,
        (alookup (indexEdges d bufsz).1 hf.1).isSome := by
      intro hf hmem
      rw [isSome_indexEdges_senders]
      exact (hprocs hf hmem).2
    obtain ⟨senders', receivers'', hrun2, hpres2⟩ :=
      runProcessorsLoop_ok (getNodeTypes d).2.1 (indexEdges d bufsz).1 receivers'
        ([] ++ (getNodeTypes d).2.2.map Prod.fst) hndProcs hallprocs_rcv hallprocs_snd
    have hbad : ∃ hf ∈ (getNodeTypes d).1, alookup senders' hf.1 = none := by
      rcases hbadsrc with ⟨hf, hmem, hout⟩
      have hnotproc : hf.1 ∉ (getNodeTypes d).2.1.map Prod.fst := by
        intro hc
        exact disjoint_proc_source_keys d hnd hf.1 hc (List.mem_map_of_mem Prod.fst hmem)
      refine ⟨hf, hmem, ?_⟩
      rw [hpres2 hf.1 hnotproc]
      exact (senders_none_iff d bufsz hf.1).mpr hout
    obtain ⟨sp, hrun3⟩ :=
      runSourcesLoop_err (getNodeTypes d).1 senders'
        (([] ++ (getNodeTypes d).2.2.map Prod.fst) ++ (getNodeTypes d).2.1.map Prod.fst)
        hndSources hbad
    simp only [startModel, hrun1, hrun2, hrun3]

/-- Counterexample to C3 as stated: in the DAG whose only node is the
source "s" with no outgoing edge, `start` does not return
`MissingNodeOutput("s")`; it panics on `senders.remove(&source).unwrap()`,
so no `MissingNodeOutput` error is ever produced. -/
theorem start_source_without_output_panics :
    startModel c3Dag 10 = ([], some .panicked) ∧
      (startModel c3Dag 10).2 ≠ some (.missingOutput "s") := by
  constructor
  · rfl
  · intro hc
    rw [show (startModel c3Dag 10).2 = some .panicked from rfl] at hc
    cases hc

/-- Witness for the amended C3 at a concrete DAG: with sink "k2"
disconnected, the spawn phase aborts with `MissingNodeInput` for a
deficient sink or processor that was not spawned. -/
theorem start_validation_amended_witness :
    (c3WitnessDag.nodes.map Prod.fst).Nodup ∧
      (∃ h, h ∉ (startModel c3WitnessDag 4).1 ∧
        (((startModel c3WitnessDag 4).2 = some (.missingInput h) ∧
            hasIncoming c3WitnessDag h = false ∧
            (h ∈ (getNodeTypes c3WitnessDag).2.2.map Prod.fst ∨
              h ∈ (getNodeTypes c3WitnessDag).2.1.map Prod.fst)) ∨
         ((startModel c3WitnessDag 4).2 = some (.missingOutput h) ∧
            hasOutgoing c3WitnessDag h = false ∧
            h ∈ (getNodeTypes c3WitnessDag).2.1.map Prod.fst))) :=
  ⟨by decide,
    (start_validation_amended c3WitnessDag 4 (by decide)).1
      (Or.inl ⟨("k2", ⟨[0], false⟩), by decide, by decide⟩)⟩

/-! ## Checkpoint metadata reading (claims C4, C9) -/

theorem getNodeCheckpointMetadata_congr (dec : Bytes → Option Schema)
    (utf8 : Bytes → String) (envs envs' : EnvState) (name : NodeHandle)
    (h : envs name = envs' name) :
    getNodeCheckpointMetadata dec utf8 envs name =
      getNodeCheckpointMetadata dec utf8 envs' name := by
  unfold getNodeCheckpointMetadata
  rw [h]

theorem getCheckpointMetadataLoop_completes (dec : Bytes → Option Schema)
    (utf8 : Bytes → String) (envs0 : EnvState) :
    ∀ (nodes : List (NodeHandle × NodeType))
      (all : List (NodeHandle × CheckpointMetadata)) (envs : EnvState),
      (∀ n, envs n = envs0 n ∨ envs n = none) →
      (∀ n ∈ nodes.map Prod.fst, getNodeCheckpointMetadata dec utf8 envs0 n ≠ .panic) →
      ∃ m envs', getCheckpointMetadataLoop dec utf8 nodes all envs = some (m, envs')
  | [], all, envs, _, _ => ⟨all, envs, rfl⟩
  | (n₀, t₀) :: rest, all, envs, hsub, hp => by
    have hp₀ : getNodeCheckpointMetadata dec utf8 envs n₀ ≠ .panic := by
      rcases hsub n₀ with hc | hc
      · rw [getNodeCheckpointMetadata_congr dec utf8 envs envs0 n₀ hc]
        exact hp n₀ (by simp)
      · unfold getNodeCheckpointMetadata
        rw [hc]
        intro habs; cases habs
    have hp' : ∀ n ∈ rest.map Prod.fst, getNodeCheckpointMetadata dec utf8 envs0 n ≠ .panic :=
      fun n hmem => hp n (List.mem_cons_of_mem _ hmem)
    rcases hres : getNodeCheckpointMetadata dec utf8 envs n₀ with r | e | _
    · obtain ⟨m, envs', hloop⟩ :=
        getCheckpointMetadataLoop_completes dec utf8 envs0 rest (insertA all n₀ r) envs hsub hp'
      refine ⟨m, envs', ?_⟩
      rw [getCheckpointMetadataLoop]
      rw [hres]
      exact hloop
    · have hsub' : ∀ n, removeEnv envs n₀ n = envs0 n ∨ removeEnv envs n₀ n = none := by
        intro n
        unfold removeEnv
        by_cases hc : n = n₀
        · rw [if_pos hc]; exact Or.inr rfl
        · rw [if_neg hc]; exact hsub n
      obtain ⟨m, envs', hloop⟩ :=
        getCheckpointMetadataLoop_completes dec utf8 envs0 rest all (removeEnv envs n₀)
          hsub' hp'
      refine ⟨m, envs', ?_⟩
      rw [getCheckpointMetadataLoop]
      rw [hres]
      exact hloop
    · exact absurd hres hp₀

theorem getCheckpointMetadataLoop_preserves (dec : Bytes → Option Schema)
    (utf8 : Bytes → String) :
    ∀ (nodes : List (NodeHandle × NodeType))
      (all : List (NodeHandle × CheckpointMetadata)) (envs : EnvState)
      (m : List (NodeHandle × CheckpointMetadata)) (envs' : EnvState) (k : NodeHandle),
      getCheckpointMetadataLoop dec utf8 nodes all envs = some (m, envs') →
      k ∉ nodes.map Prod.fst →
      alookup m k = alookup all k ∧ envs' k = envs k
  | [], all, envs, m, envs', k, hloop, _ => by
    cases hloop
    exact ⟨rfl, rfl⟩
  | (n₀, t₀) :: rest, all, envs, m, envs', k, hloop, hk => by
    have hk₀ : ¬(k = n₀) := fun hc => hk (by rw [hc]; exact List.mem_cons_self _ _)
    have hk' : k ∉ rest.map Prod.fst := fun hmem => hk (List.mem_cons_of_mem _ hmem)
    rw [getCheckpointMetadataLoop] at hloop
    rcases hres : getNodeCheckpointMetadata dec utf8 envs n₀ with r | e | _ <;>
      rw [hres] at hloop
    · obtain ⟨h1, h2⟩ :=
        getCheckpointMetadataLoop_preserves dec utf8 rest (insertA all n₀ r) envs m envs' k
          hloop hk'
      rw [h1, alookup_insertA_ne all n₀ k r hk₀]
      exact ⟨rfl, h2⟩
    · obtain ⟨h1, h2⟩ :=
        getCheckpointMetadataLoop_preserves dec utf8 rest all (removeEnv envs n₀) m envs' k
          hloop hk'
      refine ⟨h1, ?_⟩
      rw [h2]
      unfold removeEnv
      rw [if_neg hk₀]
    · cases hloop

theorem getCheckpointMetadataLoop_err_node (dec : Bytes → Option Schema)
    (utf8 : Bytes → String) :
    ∀ (nodes : List (NodeHandle × NodeType))
      (all : List (NodeHandle × CheckpointMetadata)) (envs : EnvState)
      (node : NodeHandle) (e : ExecutionError)
      (m : List (NodeHandle × CheckpointMetadata)) (envs' : EnvState),
      (nodes.map Prod.fst).Nodup →
      node ∈ nodes.map Prod.fst →
      getNodeCheckpointMetadata dec utf8 envs node = .err e →
      getCheckpointMetadataLoop dec utf8 nodes all envs = some (m, envs') →
      alookup m node = alookup all node ∧ envs' node = none
  | [], _, _, node, _, _, _, _, hmem, _, _ => by simp at hmem
  | (n₀, t₀) :: rest, all, envs, node, e, m, envs', hnd, hmem, hfail, hloop => by
    simp only [List.map_cons, List.nodup_cons] at hnd
    rw [getCheckpointMetadataLoop] at hloop
    by_cases hn : n₀ = node
    · subst hn
      rw [hfail] at hloop
      have hnotrest : n₀ ∉ rest.map Prod.fst := hnd.1
      obtain ⟨h1, h2⟩ := getCheckpointMetadataLoop_preserves dec utf8 rest all
        (removeEnv envs n₀) m envs' n₀ hloop hnotrest
      refine ⟨h1, ?_⟩
      rw [h2]
      unfold removeEnv
      rw [if_pos rfl]
    · have hmem' : node ∈ rest.map Prod.fst := by
        rcases List.mem_cons.mp hmem with hc | hc
        · exact absurd hc.symm hn
        · exact hc
      rcases hres : getNodeCheckpointMetadata dec utf8 envs n₀ with r | e₀ | _ <;>
        rw [hres] at hloop
      · obtain ⟨h1, h2⟩ := getCheckpointMetadataLoop_err_node dec utf8 rest
          (insertA all n₀ r) envs node e m envs' hnd.2 hmem' hfail hloop
        rw [h1, alookup_insertA_ne all n₀ node r (fun hc => hn hc.symm)]
        exact ⟨rfl, h2⟩
      · have hfail' : getNodeCheckpointMetadata dec utf8 (removeEnv envs n₀) node = .err e := by
          rw [getNodeCheckpointMetadata_congr dec utf8 (removeEnv envs n₀) envs node]
          · exact hfail
          · unfold removeEnv
            rw [if_neg (fun hc => hn hc.symm)]
        exact getCheckpointMetadataLoop_err_node dec utf8 rest all (removeEnv envs n₀)
          node e m envs' hnd.2 hmem' hfail' hloop
      · cases hloop

/-- C4: for every node of the DAG, if reading that node's checkpoint
metadata fails for any reason returned as an error (missing env, empty
database, unknown tag byte, malformed port key, or undecodable schema),
`get_checkpoint_metadata` removes that node's env, omits the node from its
result map, and still returns `Ok` — the per-node failure never fails the
overall analysis (a panic of another node's read is the only exception,
excluded here by hypothesis). -/
theorem checkpoint_node_failure_is_skipped (dec : Bytes → Option Schema)
    (utf8 : Bytes → String) (envs : EnvState) (d : Dag) (node : NodeHandle)
    (e : ExecutionError)
    (hnd : (d.nodes.map Prod.fst).Nodup)
    (hmem : node ∈ d.nodes.map Prod.fst)
    (hfail : getNodeCheckpointMetadata dec utf8 envs node = .err e)
    (hnp : ∀ n ∈ d.nodes.map Prod.fst, getNodeCheckpointMetadata dec utf8 envs n ≠ .panic) :
    ∃ m envs', getCheckpointMetadata dec utf8 envs d = some (m, envs') ∧
      alookup m node = none ∧ envs' node = none := by
  obtain ⟨m, envs', hloop⟩ :=
    getCheckpointMetadataLoop_completes dec utf8 envs d.nodes [] envs
      (fun n => Or.inl rfl) hnp
  obtain ⟨h1, h2⟩ := getCheckpointMetadataLoop_err_node dec utf8 d.nodes [] envs node e
    m envs' hnd hmem hfail hloop
  exact ⟨m, envs', hloop, h1, h2⟩

/-- C9: a node whose checkpoint env exists but whose checkpoint database
holds zero records makes `get_node_checkpoint_metadata` return
`InternalDatabaseError(InvalidRecord)`, and consequently
`get_checkpoint_metadata` removes that node's env and omits the node from
the metadata map, exactly as for a corrupt env. -/
theorem checkpoint_empty_db_invalid_record (dec : Bytes → Option Schema)
    (utf8 : Bytes → String) (envs : EnvState) (d : Dag) (node : NodeHandle)
    (m : List (NodeHandle × CheckpointMetadata)) (envs' : EnvState)
    (hnd : (d.nodes.map Prod.fst).Nodup)
    (hmem : node ∈ d.nodes.map Prod.fst)
    (hempty : envs node = some [])
    (hres : getCheckpointMetadata dec utf8 envs d = some (m, envs')) :
    getNodeCheckpointMetadata dec utf8 envs node =
        .err (.internalDatabaseError .invalidRecord) ∧
      alookup m node = none ∧ envs' node = none := by
  have hfail : getNodeCheckpointMetadata dec utf8 envs node =
      .err (.internalDatabaseError .invalidRecord) := by
    unfold getNodeCheckpointMetadata
    rw [hempty]
  obtain ⟨h1, h2⟩ := getCheckpointMetadataLoop_err_node dec utf8 d.nodes [] envs node
    (.internalDatabaseError .invalidRecord) m envs' hnd hmem hfail hres
  exact ⟨hfail, h1, h2⟩

/-- Witness for C4: with node "s" carrying a record with unknown tag byte 9,
the analysis still completes, omits "s", and removes its env. -/
theorem checkpoint_node_failure_is_skipped_witness :
    ∃ m envs',
      getCheckpointMetadata (fun _ => none) (fun _ => "") sampleEnvs sampleDag =
          some (m, envs') ∧
        alookup m "s" = none ∧ envs' "s" = none :=
  checkpoint_node_failure_is_skipped (fun _ => none) (fun _ => "") sampleEnvs sampleDag
    "s" (.internalDatabaseError .invalidRecord) (by decide) (by decide) (by rfl)
    (by
      intro n hn
      have h2 : n = "s" ∨ n = "k" := by simpa [sampleDag] using hn
      rcases h2 with h | h <;> subst h <;> decide)

/-- Witness for C9: node "s" with an existing but empty checkpoint database
is reported as `InternalDatabaseError(InvalidRecord)`, omitted from the
result, and its env is removed. -/
theorem checkpoint_empty_db_invalid_record_witness :
    getNodeCheckpointMetadata (fun _ => none) (fun _ => "") emptyDbEnvs "s" =
        .err (.internalDatabaseError .invalidRecord) ∧
      alookup ((getCheckpointMetadata (fun _ => none) (fun _ => "") emptyDbEnvs
        sampleDag).getD ([], emptyDbEnvs)).1 "s" = none ∧
      ((getCheckpointMetadata (fun _ => none) (fun _ => "") emptyDbEnvs
        sampleDag).getD ([], emptyDbEnvs)).2 "s" = none := by
  have h := checkpoint_empty_db_invalid_record (fun _ => none) (fun _ => "") emptyDbEnvs
    sampleDag "s"
    ((getCheckpointMetadata (fun _ => none) (fun _ => "") emptyDbEnvs sampleDag).getD
      ([], emptyDbEnvs)).1
    ((getCheckpointMetadata (fun _ => none) (fun _ => "") emptyDbEnvs sampleDag).getD
      ([], emptyDbEnvs)).2
    (by decide) (by decide) (by rfl) (by rfl)
  exact h

/-! ## Dependency-tree consistency (claim C1) -/

theorem alookup_pushSeq_self (res : List (Nat × List NodeHandle)) (q : Nat)
    (h : NodeHandle) :
    alookup (pushSeq res q h) q = some ((alookup res q).getD [] ++ [h]) :=
  alookup_pushEntry_self res q h

theorem alookup_pushSeq_ne (res : List (Nat × List NodeHandle)) (q q' : Nat)
    (h : NodeHandle) (hne : q' ≠ q) :
    alookup (pushSeq res q h) q' = alookup res q' :=
  alookup_pushEntry_ne res q q' h hne

mutual

theorem consistencyRec_eq_foldl (meta : List (NodeHandle × CheckpointMetadata))
    (src : NodeHandle) :
    ∀ (t : DepTree) (res : List (Nat × List NodeHandle)),
      consistencyRec meta src t res =
        (DepTree.handles t).foldl (fun r h => pushSeq r (seqForNode meta src h) h) res
  | .node h cs, res => by
    rw [consistencyRec, DepTree.handles, List.foldl_cons]
    exact consistencyRecList_eq_foldl meta src cs _

theorem consistencyRecList_eq_foldl (meta : List (NodeHandle × CheckpointMetadata))
    (src : NodeHandle) :
    ∀ (ts : List DepTree) (res : List (Nat × List NodeHandle)),
      consistencyRec.consistencyRecList meta src ts res =
        (DepTree.handles.handlesList ts).foldl
          (fun r h => pushSeq r (seqForNode meta src h) h) res
  | [], res => by
    rw [consistencyRec.consistencyRecList, DepTree.handles.handlesList]
    rfl
  | t :: ts, res => by
    rw [consistencyRec.consistencyRecList, DepTree.handles.handlesList, List.foldl_append,
      consistencyRec_eq_foldl meta src t res]
    exact consistencyRecList_eq_foldl meta src ts _

end

theorem foldl_pushSeq_lookup (meta : List (NodeHandle × CheckpointMetadata))
    (src : NodeHandle) :
    ∀ (hs : List NodeHandle) (res : List (Nat × List NodeHandle)) (q : Nat),
      alookup (hs.foldl (fun r h => pushSeq r (seqForNode meta src h) h) res) q =
        match alookup res q with
        | some l => some (l ++ hs.filter (fun h => seqForNode meta src h = q))
        | none =>
          if hs.filter (fun h => seqForNode meta src h = q) = [] then none
          else some (hs.filter (fun h => seqForNode meta src h = q))
  | [], res, q => by rcases h : alookup res q with _ | l <;> simp [h]
  | h :: hs, res, q => by
    rw [List.foldl_cons, foldl_pushSeq_lookup meta src hs _ q]
    by_cases hq : seqForNode meta src h = q
    · have hpush : alookup (pushSeq res (seqForNode meta src h) h) q =
          some ((alookup res q).getD [] ++ [h]) := by
        rw [hq]
        exact alookup_pushSeq_self res q h
      rw [hpush]
      rcases hr : alookup res q with _ | l
      · simp [List.filter_cons, hq]
      · simp [List.filter_cons, hq]
    · have hpush : alookup (pushSeq res (seqForNode meta src h) h) q = alookup res q :=
        alookup_pushSeq_ne res (seqForNode meta src h) q h (fun hc => hq hc.symm)
      rw [hpush]
      rcases hr : alookup res q with _ | l
      · simp [List.filter_cons, hq]
      · simp [List.filter_cons, hq]

theorem foldl_pushSeq_all_eq (meta : List (NodeHandle × CheckpointMetadata))
    (src : NodeHandle) (n : Nat) :
    ∀ (hs : List NodeHandle) (l : List NodeHandle),
      (∀ h ∈ hs, seqForNode meta src h = n) →
      hs.foldl (fun r h => pushSeq r (seqForNode meta src h) h) [(n, l)] = [(n, l ++ hs)]
  | [], l, _ => by simp
  | h :: hs, l, hall => by
    rw [List.foldl_cons]
    have hn := hall h (List.mem_cons_self _ _)
    have hone : pushSeq [(n, l)] (seqForNode meta src h) h = [(n, l ++ [h])] := by
      rw [hn]
      unfold pushSeq pushEntry
      simp [alookup, pushA]
    rw [hone,
      foldl_pushSeq_all_eq meta src n hs (l ++ [h])
        (fun h' hm => hall h' (List.mem_cons_of_mem _ hm))]
    simp

theorem alookup_map_self {α β : Type} [DecidableEq α] (f : α → β) :
    ∀ (l : List α) (s : α), s ∈ l → alookup (l.map (fun x => (x, f x))) s = some (f s)
  | [], s, hs => by cases hs
  | x :: xs, s, hs => by
    by_cases hc : s = x
    · subst hc
      simp [alookup]
    · have hmem : s ∈ xs := by
        rcases List.mem_cons.mp hs with h | h
        · exact absurd h hc
        · exact h
      simp [alookup, hc, alookup_map_self f xs s hmem]

theorem consistencyOfSource_eq_match (d : Dag)
    (meta : List (NodeHandle × CheckpointMetadata)) (s : NodeHandle) :
    consistencyOfSource d meta s =
      match (depTree d s).handles.foldl
          (fun r h => pushSeq r (seqForNode meta s h) h) [] with
      | [(k, _)] => .fullyConsistent k
      | res => .partiallyConsistent res := by
  unfold consistencyOfSource
  rw [consistencyRec_eq_foldl meta s (depTree d s) []]
  generalize (depTree d s).handles.foldl (fun r h => pushSeq r (seqForNode meta s h) h) [] = res0
  rcases res0 with _ | ⟨⟨k, l⟩, rest⟩
  · rfl
  · rcases rest with _ | ⟨p2, r2⟩ <;> rfl

theorem depTree_handles_cons (d : Dag) (s : NodeHandle) :
    ∃ cs, (depTree d s).handles = s :: DepTree.handles.handlesList cs := by
  unfold depTree getSourceDependencyTree
  exact ⟨_, by rw [DepTree.handles]⟩

/-- C1: for every source `s` of the DAG, the analyzer's result classifies
`s` as `FullyConsistent(n)` iff every node of `s`'s dependency tree (the
source with all its descendants, in the traversal the code performs)
records commit sequence exactly `n` for `s` — a node with no metadata or no
commits entry for `s` counting as sequence 0; otherwise it classifies `s`
as `PartiallyConsistent` with a map that sends each recorded sequence to
exactly the list of tree nodes recording it (in traversal order) and holds
nothing else. -/
theorem consistency_classification (d : Dag)
    (meta : List (NodeHandle × CheckpointMetadata)) (s : NodeHandle)
    (hsrc : s ∈ Dag.sources d) (n : Nat) :
    (alookup (getDependencyTreeConsistency d meta) s =
        some (consistencyOfSource d meta s))
    ∧ (consistencyOfSource d meta s = .fullyConsistent n ↔
        ∀ h ∈ (depTree d s).handles, seqForNode meta s h = n)
    ∧ (¬(∃ k, ∀ h ∈ (depTree d s).handles, seqForNode meta s h = k) →
        ∃ g, consistencyOfSource d meta s = .partiallyConsistent g ∧
          ∀ q, alookup g q =
            (if (depTree d s).handles.filter (fun h => seqForNode meta s h = q) = []
             then none
             else some ((depTree d s).handles.filter
               (fun h => seqForNode meta s h = q)))) := by
  obtain ⟨cs, hcons⟩ := depTree_handles_cons d s
  have hlook := foldl_pushSeq_lookup meta s (depTree d s).handles []
  have hne : (depTree d s).handles.foldl
      (fun r h => pushSeq r (seqForNode meta s h) h) [] ≠ [] := by
    intro habs
    have h0 := hlook (seqForNode meta s s)
    rw [habs] at h0
    have hmem : s ∈ (depTree d s).handles.filter
        (fun h => seqForNode meta s h = seqForNode meta s s) := by
      rw [List.mem_filter]
      exact ⟨by rw [hcons]; exact List.mem_cons_self _ _, by simp⟩
    have hfne := List.ne_nil_of_mem hmem
    rw [if_neg hfne] at h0
    simp [alookup] at h0
  have hall_eq : ∀ m : Nat, (∀ h ∈ (depTree d s).handles, seqForNode meta s h = m) →
      (depTree d s).handles.foldl (fun r h => pushSeq r (seqForNode meta s h) h) [] =
        [(m, (depTree d s).handles)] := by
    intro m hall
    rw [hcons] at hall ⊢
    rw [List.foldl_cons]
    have hone : pushSeq [] (seqForNode meta s s) s = [(m, [s])] := by
      rw [hall s (List.mem_cons_self _ _)]
      rfl
    rw [hone,
      foldl_pushSeq_all_eq meta s m (DepTree.handles.handlesList cs) [s]
        (fun h hm => hall h (List.mem_cons_of_mem _ hm))]
    simp
  have hsingle_all : ∀ k l,
      (depTree d s).handles.foldl (fun r h => pushSeq r (seqForNode meta s h) h) [] =
        [(k, l)] →
      ∀ h ∈ (depTree d s).handles, seqForNode meta s h = k := by
    intro k l hG h hmem
    have h0 := hlook (seqForNode meta s h)
    rw [hG] at h0
    have hmemf : h ∈ (depTree d s).handles.filter
        (fun h' => seqForNode meta s h' = seqForNode meta s h) := by
      rw [List.mem_filter]
      exact ⟨hmem, by simp⟩
    have hfne := List.ne_nil_of_mem hmemf
    rw [if_neg hfne] at h0
    by_cases hc : seqForNode meta s h = k
    · exact hc
    · exfalso
      have : alookup [(k, l)] (seqForNode meta s h) = none := by
        simp [alookup, hc]
      rw [this] at h0
      cases h0
  refine ⟨alookup_map_self (consistencyOfSource d meta) (Dag.sources d) s hsrc, ?_, ?_⟩
  · rw [consistencyOfSource_eq_match]
    rcases hG : (depTree d s).handles.foldl
        (fun r h => pushSeq r (seqForNode meta s h) h) [] with _ | ⟨⟨k, l⟩, rest⟩
    · exact absurd hG hne
    · rcases rest with _ | ⟨p2, rest2⟩
      · simp only
        constructor
        · intro hk
          have hkn : k = n := by
            have := hk
            simp only [Consistency.fullyConsistent.injEq] at this
            exact this
          rw [← hkn]
          exact hsingle_all k l hG
        · intro hall
          have := hall_eq n hall
          rw [hG] at this
          have hk : k = n := by
            have h2 := congrArg (fun r => (r.headD (0, [])).1) this
            simpa using h2
          rw [hk]
      · simp only
        constructor
        · intro habs; cases habs
        · intro hall
          have := hall_eq n hall
          rw [hG] at this
          cases this
  · intro hno
    rw [consistencyOfSource_eq_match]
    rcases hG : (depTree d s).handles.foldl
        (fun r h => pushSeq r (seqForNode meta s h) h) [] with _ | ⟨⟨k, l⟩, rest⟩
    · exact absurd hG hne
    · rcases rest with _ | ⟨p2, rest2⟩
      · exact absurd ⟨k, hsingle_all k l hG⟩ hno
      · refine ⟨(k, l) :: p2 :: rest2, by simp only, ?_⟩
        intro q
        have h0 := hlook q
        rw [hG] at h0
        exact h0

/-- Witness for C1 at the spec's checkpoint scenario: source "S" with sinks
"A" and "B" all recording seq 10 is classified `FullyConsistent(10)`. -/
theorem consistency_classification_witness :
    alookup (getDependencyTreeConsistency c1Dag c1Meta) "S" =
        some (consistencyOfSource c1Dag c1Meta "S") ∧
      consistencyOfSource c1Dag c1Meta "S" = .fullyConsistent 10 :=
  ⟨(consistency_classification c1Dag c1Meta "S" (by decide) 10).1,
   (consistency_classification c1Dag c1Meta "S" (by decide) 10).2.1.mpr (by decide)⟩

/-! ## Worker message loops (claims C2, C8) -/

theorem runSinkAux_append (inP : List PortHandle)
    (upd : List (PortHandle × Schema) → Option ExecutionError)
    (prc : PortHandle → Nat → Operation → Option ExecutionError) :
    ∀ (xs ys : List (PortHandle × ExecutorOperation)) (s : SinkState),
      runSinkAux inP upd prc s (xs ++ ys) =
        match runSinkAux inP upd prc s xs with
        | .inl s' => runSinkAux inP upd prc s' ys
        | .inr d => .inr d
  | [], ys, s => by simp [runSinkAux]
  | m :: xs, ys, s => by
    rw [List.cons_append, runSinkAux, runSinkAux]
    rcases sinkStep inP upd prc s m with s' | d
    · exact runSinkAux_append inP upd prc xs ys s'
    · rfl

theorem runProcAux_append (inP outP fwP : List PortHandle)
    (upd : PortHandle → List (PortHandle × Schema) → Option Schema)
    (prc : PortHandle → Operation → Option ExecutionError) :
    ∀ (xs ys : List (PortHandle × ExecutorOperation)) (s : ProcState),
      runProcAux inP outP fwP upd prc s (xs ++ ys) =
        match runProcAux inP outP fwP upd prc s xs with
        | .inl s' => runProcAux inP outP fwP upd prc s' ys
        | .inr d => .inr d
  | [], ys, s => by simp [runProcAux]
  | m :: xs, ys, s => by
    rw [List.cons_append, runProcAux, runProcAux]
    rcases procStep inP outP fwP upd prc s m with s' | d
    · exact runProcAux_append inP outP fwP upd prc xs ys s'
    · rfl

theorem hasSchemaFor_append (xs ys : List (PortHandle × ExecutorOperation))
    (p : PortHandle) :
    hasSchemaFor (xs ++ ys) p = (hasSchemaFor xs p || hasSchemaFor ys p) := by
  unfold hasSchemaFor
  exact List.any_append

theorem count_zero_iff (inP : List PortHandle) (schemas : List (PortHandle × Schema)) :
    ((inP.filter (fun p => !(alookup schemas p).isSome)).length = 0) ↔
      ∀ p ∈ inP, (alookup schemas p).isSome := by
  rw [List.length_eq_zero, List.filter_eq_nil_iff]
  constructor
  · intro h p hp
    have h2 := h p hp
    simp only [Bool.not_eq_true', Bool.not_eq_false] at h2
    exact h2
  · intro h p hp
    simp [h p hp]

theorem runSinkAux_inl_invariant (inP : List PortHandle)
    (upd : List (PortHandle × Schema) → Option ExecutionError)
    (prc : PortHandle → Nat → Operation → Option ExecutionError)
    (msgs : List (PortHandle × ExecutorOperation)) :
    ∀ s, runSinkAux inP upd prc initialSinkState msgs = .inl s →
      (∀ p, (alookup s.inputSchemas p).isSome = hasSchemaFor msgs p) ∧
      (s.schemaInitialized = true → ∀ p ∈ inP, hasSchemaFor msgs p = true) ∧
      (¬(∀ p ∈ inP, hasSchemaFor msgs p = true) → s.processed = []) := by
  induction msgs using List.reverseRecOn with
  | nil =>
    intro s h
    simp only [runSinkAux] at h
    cases h
    refine ⟨fun p => by simp [initialSinkState, alookup, hasSchemaFor], ?_, fun _ => rfl⟩
    intro hflag
    cases hflag
  | append_singleton xs m ih =>
    intro s h
    rw [runSinkAux_append inP upd prc xs [m] initialSinkState] at h
    rcases hxs : runSinkAux inP upd prc initialSinkState xs with s' | d <;> rw [hxs] at h
    · obtain ⟨ihA, ihB, ihC⟩ := ih s' hxs
      simp only [runSinkAux] at h
      obtain ⟨q, op⟩ := m
      have hmono : ∀ p, hasSchemaFor xs p = true → hasSchemaFor (xs ++ [(q, op)]) p = true := by
        intro p hp
        rw [hasSchemaFor_append, hp]
        rfl
      cases op with
      | schemaUpdate sch =>
        have hsingle : ∀ p, hasSchemaFor (xs ++ [(q, .schemaUpdate sch)]) p =
            (hasSchemaFor xs p || decide (q = p)) := by
          intro p
          rw [hasSchemaFor_append]
          simp [hasSchemaFor]
        simp only [sinkStep] at h
        by_cases hcount :
            ((inP.filter
              (fun p => !(alookup (insertA s'.inputSchemas q sch) p).isSome)).length = 0)
        · rw [if_pos hcount] at h
          have hcov : ∀ p ∈ inP, (alookup (insertA s'.inputSchemas q sch) p).isSome :=
            (count_zero_iff inP _).mp hcount
          have hcov' : ∀ p ∈ inP, hasSchemaFor (xs ++ [(q, .schemaUpdate sch)]) p = true := by
            intro p hp
            have h2 := hcov p hp
            by_cases hpq : p = q
            · rw [hsingle p, hpq]
              simp
            · rw [alookup_insertA_ne _ _ _ _ hpq] at h2
              rw [hsingle p, ← ihA p, h2]
              rfl
          rcases hupd : upd (insertA s'.inputSchemas q sch) with _ | e <;> rw [hupd] at h
          · simp only [runSinkAux] at h
            cases h
            refine ⟨?_, fun _ => hcov', fun hno => absurd hcov' hno⟩
            intro p
            by_cases hpq : p = q
            · subst hpq
              rw [alookup_insertA_self, hsingle p]
              simp
            · rw [alookup_insertA_ne _ _ _ _ hpq, hsingle p, ← ihA p]
              have : decide (q = p) = false := by
                simp
                exact fun hc => hpq hc.symm
              rw [this]
              simp
          · cases h
        · rw [if_neg hcount] at h
          simp only [runSinkAux] at h
          cases h
          have hnotcov : ¬(∀ p ∈ inP, hasSchemaFor (xs ++ [(q, .schemaUpdate sch)]) p = true) := by
            intro hall
            apply hcount
            rw [count_zero_iff]
            intro p hp
            have h2 := hall p hp
            rw [hsingle p] at h2
            by_cases hpq : p = q
            · subst hpq
              rw [alookup_insertA_self]
              rfl
            · rw [alookup_insertA_ne _ _ _ _ hpq, ihA p]
              have : decide (q = p) = false := by
                simp
                exact fun hc => hpq hc.symm
              rw [this] at h2
              simpa using h2
          refine ⟨?_, ?_, fun _ => ihC (fun hall => hnotcov (fun p hp => ?_)) ⟩
          · intro p
            by_cases hpq : p = q
            · subst hpq
              rw [alookup_insertA_self, hsingle p]
              simp
            · rw [alookup_insertA_ne _ _ _ _ hpq, hsingle p, ← ihA p]
              have : decide (q = p) = false := by
                simp
                exact fun hc => hpq hc.symm
              rw [this]
              simp
          · intro hflag
            exact fun p hp => hmono p (ihB hflag p hp)
          · exact hmono p (hall p hp)
      | terminate => cases h
      | insert seq new =>
        have hsame : ∀ p, hasSchemaFor (xs ++ [(q, .insert seq new)]) p = hasSchemaFor xs p := by
          intro p
          rw [hasSchemaFor_append]
          simp [hasSchemaFor]
        simp only [sinkStep] at h
        rcases hflag : s'.schemaInitialized with _ | _ <;> rw [hflag] at h
        · cases h
        · simp only [mapToOp, if_pos rfl] at h
          rcases hprc : prc q seq (.insert new) with _ | e <;> rw [hprc] at h
          · simp only [runSinkAux] at h
            cases h
            refine ⟨fun p => by rw [hsame p]; exact ihA p, ?_, ?_⟩
            · intro _ p hp
              exact hmono p (ihB hflag p hp)
            · intro hno
              exact absurd (fun p hp => hmono p (ihB hflag p hp)) hno
          · cases h
      | delete seq old =>
        have hsame : ∀ p, hasSchemaFor (xs ++ [(q, .delete seq old)]) p = hasSchemaFor xs p := by
          intro p
          rw [hasSchemaFor_append]
          simp [hasSchemaFor]
        simp only [sinkStep] at h
        rcases hflag : s'.schemaInitialized with _ | _ <;> rw [hflag] at h
        · cases h
        · simp only [mapToOp, if_pos rfl] at h
          rcases hprc : prc q seq (.delete old) with _ | e <;> rw [hprc] at h
          · simp only [runSinkAux] at h
            cases h
            refine ⟨fun p => by rw [hsame p]; exact ihA p, ?_, ?_⟩
            · intro _ p hp
              exact hmono p (ihB hflag p hp)
            · intro hno
              exact absurd (fun p hp => hmono p (ihB hflag p hp)) hno
          · cases h
      | update seq old new =>
        have hsame : ∀ p, hasSchemaFor (xs ++ [(q, .update seq old new)]) p =
            hasSchemaFor xs p := by
          intro p
          rw [hasSchemaFor_append]
          simp [hasSchemaFor]
        simp only [sinkStep] at h
        rcases hflag : s'.schemaInitialized with _ | _ <;> rw [hflag] at h
        · cases h
        · simp only [mapToOp, if_pos rfl] at h
          rcases hprc : prc q seq (.update old new) with _ | e <;> rw [hprc] at h
          · simp only [runSinkAux] at h
            cases h
            refine ⟨fun p => by rw [hsame p]; exact ihA p, ?_, ?_⟩
            · intro _ p hp
              exact hmono p (ihB hflag p hp)
            · intro hno
              exact absurd (fun p hp => hmono p (ihB hflag p hp)) hno
          · cases h
    · cases h

theorem procSchemaLoop_inl (upd : PortHandle → List (PortHandle × Schema) → Option Schema)
    (schemas : List (PortHandle × Schema)) :
    ∀ (ports : List PortHandle) (s s' : ProcState),
      procSchemaLoop upd schemas ports s = .inl s' →
      s'.inputSchemas = s.inputSchemas ∧ s'.processed = s.processed
  | [], s, s', h => by
    simp only [procSchemaLoop] at h
    cases h
    exact ⟨rfl, rfl⟩
  | p :: ps, s, s', h => by
    simp only [procSchemaLoop] at h
    rcases hupd : upd p schemas with _ | sch <;> simp only [hupd] at h
    · cases h
    · obtain ⟨h1, h2⟩ := procSchemaLoop_inl upd schemas ps
        { s with
          outputSchemas := insertA s.outputSchemas p sch
          schemaInitialized := true
          sent := s.sent ++ [FwEvent.schemaUpdate p sch] } s' h
      exact ⟨h1, h2⟩

theorem runProcAux_inl_invariant (inP outP fwP : List PortHandle)
    (upd : PortHandle → List (PortHandle × Schema) → Option Schema)
    (prc : PortHandle → Operation → Option ExecutionError)
    (msgs : List (PortHandle × ExecutorOperation)) :
    ∀ s, runProcAux inP outP fwP upd prc initialProcState msgs = .inl s →
      (∀ p, (alookup s.inputSchemas p).isSome = hasSchemaFor msgs p) ∧
      (s.schemaInitialized = true → ∀ p ∈ inP, hasSchemaFor msgs p = true) ∧
      (¬(∀ p ∈ inP, hasSchemaFor msgs p = true) → s.processed = [] ∧ s.sent = []) := by
  induction msgs using List.reverseRecOn with
  | nil =>
    intro s h
    simp only [runProcAux] at h
    cases h
    refine ⟨fun p => by simp [initialProcState, alookup, hasSchemaFor], ?_, fun _ => ⟨rfl, rfl⟩⟩
    intro hflag
    cases hflag
  | append_singleton xs m ih =>
    intro s h
    rw [runProcAux_append inP outP fwP upd prc xs [m] initialProcState] at h
    rcases hxs : runProcAux inP outP fwP upd prc initialProcState xs with s' | d <;>
      rw [hxs] at h
    · obtain ⟨ihA, ihB, ihC⟩ := ih s' hxs
      simp only [runProcAux] at h
      obtain ⟨q, op⟩ := m
      have hmono : ∀ p, hasSchemaFor xs p = true →
          hasSchemaFor (xs ++ [(q, op)]) p = true := by
        intro p hp
        rw [hasSchemaFor_append, hp]
        rfl
      cases op with
      | schemaUpdate sch =>
        have hsingle : ∀ p, hasSchemaFor (xs ++ [(q, .schemaUpdate sch)]) p =
            (hasSchemaFor xs p || decide (q = p)) := by
          intro p
          rw [hasSchemaFor_append]
          simp [hasSchemaFor]
        have hlookup : ∀ p, (alookup (insertA s'.inputSchemas q sch) p).isSome =
            hasSchemaFor (xs ++ [(q, .schemaUpdate sch)]) p := by
          intro p
          by_cases hpq : p = q
          · subst hpq
            rw [alookup_insertA_self, hsingle p]
            simp
          · rw [alookup_insertA_ne _ _ _ _ hpq, hsingle p, ← ihA p]
            have hd : decide (q = p) = false := by
              simp
              exact fun hc => hpq hc.symm
            rw [hd]
            simp
        simp only [procStep] at h
        by_cases hcount :
            ((inP.filter
              (fun p => !(alookup (insertA s'.inputSchemas q sch) p).isSome)).length = 0)
        · rw [if_pos hcount] at h
          have hcov : ∀ p ∈ inP, (alookup (insertA s'.inputSchemas q sch) p).isSome :=
            (count_zero_iff inP _).mp hcount
          have hcov' : ∀ p ∈ inP,
              hasSchemaFor (xs ++ [(q, .schemaUpdate sch)]) p = true := by
            intro p hp
            rw [← hlookup p]
            exact hcov p hp
          rcases hloop : procSchemaLoop upd (insertA s'.inputSchemas q sch) outP
              { s' with inputSchemas := insertA s'.inputSchemas q sch } with s'' | d
          · rw [hloop] at h
            simp only [runProcAux] at h
            cases h
            obtain ⟨hin, _⟩ :=
              procSchemaLoop_inl upd (insertA s'.inputSchemas q sch) outP _ _ hloop
            refine ⟨?_, fun _ => hcov', fun hno => absurd hcov' hno⟩
            intro p
            rw [hin]
            exact hlookup p
          · rw [hloop] at h
            cases h
        · rw [if_neg hcount] at h
          simp only [runProcAux] at h
          cases h
          have hnotcov :
              ¬(∀ p ∈ inP, hasSchemaFor (xs ++ [(q, .schemaUpdate sch)]) p = true) := by
            intro hall
            apply hcount
            rw [count_zero_iff]
            intro p hp
            have h2 := hall p hp
            rw [← hlookup p] at h2
            exact h2
          refine ⟨hlookup, ?_, fun _ => ihC ?_⟩
          · intro hflag
            exact fun p hp => hmono p (ihB hflag p hp)
          · intro hall
            exact hnotcov (fun p hp => hmono p (hall p hp))
      | terminate => cases h
      | insert seq new =>
        have hsame : ∀ p, hasSchemaFor (xs ++ [(q, .insert seq new)]) p =
            hasSchemaFor xs p := by
          intro p
          rw [hasSchemaFor_append]
          simp [hasSchemaFor]
        simp only [procStep] at h
        rcases hflag : s'.schemaInitialized with _ | _ <;> rw [hflag] at h
        · cases h
        · simp only [mapToOp, if_pos rfl] at h
          rcases hprc : prc q (.insert new) with _ | e <;> rw [hprc] at h
          · simp only [runProcAux] at h
            cases h
            refine ⟨fun p => by rw [hsame p]; exact ihA p, ?_, ?_⟩
            · intro _ p hp
              exact hmono p (ihB hflag p hp)
            · intro hno
              exact absurd (fun p hp => hmono p (ihB hflag p hp)) hno
          · cases h
      | delete seq old =>
        have hsame : ∀ p, hasSchemaFor (xs ++ [(q, .delete seq old)]) p =
            hasSchemaFor xs p := by
          intro p
          rw [hasSchemaFor_append]
          simp [hasSchemaFor]
        simp only [procStep] at h
        rcases hflag : s'.schemaInitialized with _ | _ <;> rw [hflag] at h
        · cases h
        · simp only [mapToOp, if_pos rfl] at h
          rcases hprc : prc q (.delete old) with _ | e <;> rw [hprc] at h
          · simp only [runProcAux] at h
            cases h
            refine ⟨fun p => by rw [hsame p]; exact ihA p, ?_, ?_⟩
            · intro _ p hp
              exact hmono p (ihB hflag p hp)
            · intro hno
              exact absurd (fun p hp => hmono p (ihB hflag p hp)) hno
          · cases h
      | update seq old new =>
        have hsame : ∀ p, hasSchemaFor (xs ++ [(q, .update seq old new)]) p =
            hasSchemaFor xs p := by
          intro p
          rw [hasSchemaFor_append]
          simp [hasSchemaFor]
        simp only [procStep] at h
        rcases hflag : s'.schemaInitialized with _ | _ <;> rw [hflag] at h
        · cases h
        · simp only [mapToOp, if_pos rfl] at h
          rcases hprc : prc q (.update old new) with _ | e <;> rw [hprc] at h
          · simp only [runProcAux] at h
            cases h
            refine ⟨fun p => by rw [hsame p]; exact ihA p, ?_, ?_⟩
            · intro _ p hp
              exact hmono p (ihB hflag p hp)
            · intro hno
              exact absurd (fun p hp => hmono p (ihB hflag p hp)) hno
          · cases h
    · cases h

/-- C2: for every sink or processor worker, a data operation (Insert,
Delete, or Update) dequeued from any input receiver before a `SchemaUpdate`
has been received for every declared input port makes the worker return
`SchemaNotInitialized`; no data op is dispatched to the operator's
`process` before all input schemas have been absorbed (the finished run's
dispatch trace is empty). -/
theorem schema_before_data :
    (∀ (inP : List PortHandle)
        (upd : List (PortHandle × Schema) → Option ExecutionError)
        (prc : PortHandle → Nat → Operation → Option ExecutionError)
        (pre : List (PortHandle × ExecutorOperation)) (s : SinkState)
        (q : PortHandle) (op : ExecutorOperation)
        (rest : List (PortHandle × ExecutorOperation)),
      runSinkAux inP upd prc initialSinkState pre = .inl s →
      op.isDataOp = true →
      ¬(∀ p ∈ inP, hasSchemaFor pre p = true) →
      runSinkAux inP upd prc initialSinkState (pre ++ (q, op) :: rest) =
        .inr ⟨.err .schemaNotInitialized, []⟩)
    ∧ (∀ (inP outP fwP : List PortHandle)
        (upd : PortHandle → List (PortHandle × Schema) → Option Schema)
        (prc : PortHandle → Operation → Option ExecutionError)
        (pre : List (PortHandle × ExecutorOperation)) (s : ProcState)
        (q : PortHandle) (op : ExecutorOperation)
        (rest : List (PortHandle × ExecutorOperation)),
      runProcAux inP outP fwP upd prc initialProcState pre = .inl s →
      op.isDataOp = true →
      ¬(∀ p ∈ inP, hasSchemaFor pre p = true) →
      runProcAux inP outP fwP upd prc initialProcState (pre ++ (q, op) :: rest) =
        .inr ⟨.err .schemaNotInitialized, [], []⟩) := by
  constructor
  · intro inP upd prc pre s q op rest hrun hdata hnocov
    obtain ⟨ihA, ihB, ihC⟩ := runSinkAux_inl_invariant inP upd prc pre s hrun
    have hflag : s.schemaInitialized = false := by
      rcases hf : s.schemaInitialized with _ | _
      · rfl
      · exact absurd (ihB hf) hnocov
    have hproc : s.processed = [] := ihC hnocov
    rw [runSinkAux_append inP upd prc pre ((q, op) :: rest) initialSinkState, hrun]
    cases op <;> try cases hdata
    · simp [runSinkAux, sinkStep, hflag, hproc]
    · simp [runSinkAux, sinkStep, hflag, hproc]
    · simp [runSinkAux, sinkStep, hflag, hproc]
  · intro inP outP fwP upd prc pre s q op rest hrun hdata hnocov
    obtain ⟨ihA, ihB, ihC⟩ := runProcAux_inl_invariant inP outP fwP upd prc pre s hrun
    have hflag : s.schemaInitialized = false := by
      rcases hf : s.schemaInitialized with _ | _
      · rfl
      · exact absurd (ihB hf) hnocov
    obtain ⟨hproc, hsent⟩ := ihC hnocov
    rw [runProcAux_append inP outP fwP upd prc pre ((q, op) :: rest) initialProcState, hrun]
    cases op <;> try cases hdata
    · simp [runProcAux, procStep, hflag, hproc, hsent]
    · simp [runProcAux, procStep, hflag, hproc, hsent]
    · simp [runProcAux, procStep, hflag, hproc, hsent]

/-- Witness for C2: a sink with declared input port 0 that dequeues an
`Insert` before any `SchemaUpdate` returns `SchemaNotInitialized` with an
empty dispatch trace. -/
theorem schema_before_data_witness :
    runSinkAux [0] (fun _ => none) (fun _ _ _ => none) initialSinkState
        ([] ++ (0, .insert 1 ⟨7⟩) :: []) =
      .inr ⟨.err .schemaNotInitialized, []⟩ :=
  schema_before_data.1 [0] (fun _ => none) (fun _ _ _ => none) [] initialSinkState 0
    (.insert 1 ⟨7⟩) [] (by rfl) (by decide) (by decide)

/-- C8: as soon as a single `Terminate` is dequeued from any one input
receiver, the worker returns `Ok` without dequeuing any further message: a
processor first broadcasts `Terminate` on every port of its forwarder's
senders map via `send_term`, a sink returns directly; the result is the
same for every list of messages still pending behind the `Terminate`. -/
theorem terminate_returns_ok :
    (∀ (inP : List PortHandle)
        (upd : List (PortHandle × Schema) → Option ExecutionError)
        (prc : PortHandle → Nat → Operation → Option ExecutionError)
        (pre : List (PortHandle × ExecutorOperation)) (s : SinkState)
        (q : PortHandle) (post : List (PortHandle × ExecutorOperation)),
      runSinkAux inP upd prc initialSinkState pre = .inl s →
      runSinkAux inP upd prc initialSinkState (pre ++ (q, .terminate) :: post) =
        .inr ⟨.ok, s.processed⟩)
    ∧ (∀ (inP outP fwP : List PortHandle)
        (upd : PortHandle → List (PortHandle × Schema) → Option Schema)
        (prc : PortHandle → Operation → Option ExecutionError)
        (pre : List (PortHandle × ExecutorOperation)) (s : ProcState)
        (q : PortHandle) (post : List (PortHandle × ExecutorOperation)),
      runProcAux inP outP fwP upd prc initialProcState pre = .inl s →
      runProcAux inP outP fwP upd prc initialProcState (pre ++ (q, .terminate) :: post) =
        .inr ⟨.ok, s.processed, s.sent ++ sendTerm fwP⟩) := by
  constructor
  · intro inP upd prc pre s q post hrun
    rw [runSinkAux_append inP upd prc pre ((q, .terminate) :: post) initialSinkState, hrun]
    simp only [runSinkAux, sinkStep]
  · intro inP outP fwP upd prc pre s q post hrun
    rw [runProcAux_append inP outP fwP upd prc pre ((q, .terminate) :: post)
      initialProcState, hrun]
    simp only [runProcAux, procStep]

/-- Witness for C8: a processor that dequeues `Terminate` first returns
`Ok` and broadcasts `Terminate` on its forwarder port 1, leaving the
`Insert` still queued behind it untouched. -/
theorem terminate_returns_ok_witness :
    runProcAux [0] [1] [1] (fun _ _ => none) (fun _ _ => none) initialProcState
        ([] ++ (0, .terminate) :: [(0, .insert 5 ⟨3⟩)]) =
      .inr ⟨.ok, initialProcState.processed, initialProcState.sent ++ sendTerm [1]⟩ :=
  terminate_returns_ok.2 [0] [1] [1] (fun _ _ => none) (fun _ _ => none) []
    initialProcState 0 [(0, .insert 5 ⟨3⟩)] (by rfl)

end Dozer
